import Mathlib

/-! Verification of `scripts/validate-bios/main.go` (elekto).

A shallow embedding of the candidate-bio validator.  Go strings are modelled
as lists of Unicode code points (`Str`), Go `error` values by their message
(`Option Str`, `none` being `nil`).  The regular expressions of the source are
kept as data (`Re`) and run by a backtracking matcher, which is the match Go's
`regexp` package documents (leftmost, and among those the one a backtracking
search finds first).
-/

namespace ValidateBios

/-- A Go string, as the list of its code points. -/
abbrev Str := List Char

/-! ## Regular expressions (the fragment of `regexp` the source uses) -/

/-- Abstract syntax of the regular expressions occurring in the source. -/
inductive Re where
  /-- The empty expression. -/
  | eps
  /-- The anchor `^`: without the `m` flag, the beginning of the text. -/
  | bol
  /-- The anchor `$`: without the `m` flag, the end of the text. -/
  | eol
  /-- One character of a class. -/
  | cls (p : Char → Bool)
  /-- Concatenation. -/
  | seq (a b : Re)
  /-- Repetition `r*` (greedy) or `r*?` (lazy). -/
  | star (greedy : Bool) (r : Re)
  /-- The capturing group `( r )`; the source's expressions have at most one. -/
  | group (r : Re)

/-- State of a match attempt: offset into the text, remaining text, group 1. -/
structure MState where
  off : Nat
  rest : Str
  cap : Option Str

/-- Iteration of a repetition.  An iteration has to consume text; `fuel` is
the length of the remaining text, so it never runs out before the text does. -/
def starLoop (body : MState → (MState → Option MState) → Option MState) (greedy : Bool) :
    Nat → MState → (MState → Option MState) → Option MState
  | 0, st, k => k st
  | fuel + 1, st, k =>
    if greedy then
      match body st (fun st' =>
          if st'.rest.length < st.rest.length then starLoop body greedy fuel st' k else none) with
      | some r => some r
      | none => k st
    else
      match k st with
      | some r => some r
      | none => body st (fun st' =>
          if st'.rest.length < st.rest.length then starLoop body greedy fuel st' k else none)

/-- Backtracking matcher in continuation-passing style: `matchRe r st k` is the
first success, in priority order, of `r` from `st` followed by `k`. -/
def matchRe : Re → MState → (MState → Option MState) → Option MState
  | .eps, st, k => k st
  | .bol, st, k => if st.off = 0 then k st else none
  | .eol, st, k => match st.rest with
    | [] => k st
    | _ :: _ => none
  | .cls p, st, k => match st.rest with
    | [] => none
    | c :: t => if p c then k { st with off := st.off + 1, rest := t } else none
  | .seq a b, st, k => matchRe a st (fun st' => matchRe b st' k)
  | .star g r, st, k => starLoop (fun s k' => matchRe r s k') g st.rest.length st k
  | .group r, st, k =>
    matchRe r st (fun st' =>
      k { st' with cap := some (st.rest.take (st.rest.length - st'.rest.length)) })

/-- The literal character `c`. -/
def Re.chr (c : Char) : Re := .cls (fun d => d == c)

/-- A literal string. -/
def Re.lit : Str → Re
  | [] => .eps
  | c :: cs => .seq (.chr c) (Re.lit cs)

/-- The counted repetition `r{n}`. -/
def Re.rep : Nat → Re → Re
  | 0, _ => .eps
  | n + 1, r => .seq r (Re.rep n r)

/-- The repetition `r+` (greedy). -/
def Re.plus (r : Re) : Re := .seq r (.star true r)

/-- Leftmost search: the first start offset, from `off` on, at which the
expression matches, with the final state of that match. -/
def searchFrom (re : Re) : Nat → Str → Option (Nat × MState)
  | off, [] =>
    match matchRe re ⟨off, [], none⟩ some with
    | some st => some (off, st)
    | none => none
  | off, c :: t =>
    match matchRe re ⟨off, c :: t, none⟩ some with
    | some st => some (off, st)
    | none => searchFrom re (off + 1) t

/-- The slice `s[b:e]`. -/
def slice (s : Str) (b e : Nat) : Str := (s.drop b).take (e - b)

/-- `(*Regexp).FindStringSubmatch` for an expression with one group: `[]`
(Go's `nil`) without a match, else the matched text and the text of group 1. -/
def findStringSubmatch (re : Re) (s : Str) : List Str :=
  match searchFrom re 0 s with
  | none => []
  | some (b, st) => [slice s b st.off, st.cap.getD []]

/-- The class `\s` of `regexp`: `[\t\n\f\r ]`. -/
def isReSpace (c : Char) : Bool :=
  c == '\t' || c == '\n' || c == '\x0c' || c == '\r' || c == ' '

/-- The class `.` under the `s` flag: any character. -/
def isAny (_ : Char) : Bool := true

/-! ## `extractYAMLHeader` -/

/-- The closing part `\n---\s*\n` of the header expression. -/
def dashClose : Re :=
  .seq (Re.lit "\n---".toList) (.seq (.star true (.cls isReSpace)) (Re.chr '\n'))

/-- The header expression after its anchor: `-{61}\s*\n(.*?)\n---\s*\n`. -/
def dashBody : Re :=
  .seq (Re.rep 61 (Re.chr '-')) (.seq (.star true (.cls isReSpace)) (.seq (Re.chr '\n')
    (.seq (.group (.star false (.cls isAny))) dashClose)))

/-- The expression `(?s)^-{61}\s*\n(.*?)\n---\s*\n`. -/
def dashRegex : Re := .seq .bol dashBody

/-- The message of `extractYAMLHeader`'s error. -/
def errNoHeader : Str := "could not find YAML header between dashes".toList

/-- `extractYAMLHeader`: the returned string and the error (`none` is `nil`). -/
def extractYAMLHeader (content : Str) : Str × Option Str :=
  let matches_ := findStringSubmatch dashRegex content
  if matches_.length ≠ 2 then ([], some errNoHeader) else (matches_.getD 1 [], none)


/-! ## Strings (`strings`, `unicode`, `path/filepath`) -/

/-- `unicode.IsSpace`: the Latin-1 spaces and the code points with the
`White_Space` property. -/
def isSpace (c : Char) : Bool :=
  c == '\t' || c == '\n' || c == '\x0b' || c == '\x0c' || c == '\r' || c == ' ' ||
  c.toNat == 0x85 || c.toNat == 0xA0 || c.toNat == 0x1680 ||
  (0x2000 ≤ c.toNat && c.toNat ≤ 0x200A) ||
  c.toNat == 0x2028 || c.toNat == 0x2029 || c.toNat == 0x202F || c.toNat == 0x205F ||
  c.toNat == 0x3000

/-- `strings.TrimSpace`: leading and trailing white space removed. -/
def trimSpace (s : Str) : Str :=
  ((s.dropWhile isSpace).reverse.dropWhile isSpace).reverse

/-- `strings.HasPrefix`. -/
def hasPrefix (s pre : Str) : Bool := pre.isPrefixOf s

/-- `strings.HasSuffix`. -/
def hasSuffix (s suf : Str) : Bool := suf.isSuffixOf s

/-- `strings.Contains`: `substr` occurs at some position of `s`. -/
def strContains (s substr : Str) : Bool := s.tails.any (fun t => substr.isPrefixOf t)

/-- `strings.Split(s, sep)` for a one-character separator. -/
def strSplit (sep : Char) : Str → List Str
  | [] => [[]]
  | c :: t =>
    if c == sep then [] :: strSplit sep t
    else
      match strSplit sep t with
      | [] => [[c]]
      | piece :: pieces => (c :: piece) :: pieces

/-- `filepath.Base` with `/` as separator: the last element of the path. -/
def filepathBase (path : Str) : Str :=
  if path = [] then ".".toList
  else
    let stripped := (path.reverse.dropWhile (fun c => c == '/')).reverse
    let last := (stripped.reverse.takeWhile (fun c => c != '/')).reverse
    if last = [] then "/".toList else last

/-- The verb `%d` of `fmt` for a non-negative count. -/
def fmtD (n : Nat) : Str := (Nat.repr n).toList

/-! ## Data model -/

/-- The type `ValidationError`. -/
structure ValidationError where
  File : Str
  Message : Str
  deriving DecidableEq

/-- The type `CandidateHeader`; a `map[string]string` is an association list. -/
structure CandidateHeader where
  Name : Str
  ID : Str
  Info : List (List (Str × Str))

/-- The type `ElectionConfig`. -/
structure ElectionConfig where
  ShowCandidateFields : List Str

/-- A value that `yaml.Unmarshal` stores in an `interface{}`. -/
inductive YamlValue where
  | str (s : Str)
  | int (n : Int)
  | float
  | bool (b : Bool)
  | null
  | composite

/-- One call that `filepath.Walk` makes to its callback. -/
structure WalkEntry where
  path : Str
  name : Str
  isRegular : Bool
  err : Option Str

/-- What the program takes from outside the repository: the file system and
the YAML library (`gopkg.in/yaml.v3`), one decoder per target type. -/
structure Env where
  /-- `os.ReadFile`: the content, or the error's message. -/
  readFile : Str → Except Str Str
  /-- `yaml.Unmarshal` into a `map[string]interface{}`. -/
  unmarshalMap : Str → Except Str (Str → Option YamlValue)
  /-- `yaml.Unmarshal` into a `CandidateHeader`. -/
  unmarshalHeader : Str → Except Str CandidateHeader
  /-- `yaml.Unmarshal` into an `ElectionConfig`. -/
  unmarshalConfig : Str → Except Str ElectionConfig
  /-- `filepath.Walk`: the callback invocations, in order. -/
  walk : Str → List WalkEntry
  /-- `filepath.Join`. -/
  joinPath : Str → Str → Str

/-! ## `findCandidateFiles`, `loadElectionConfig` -/

/-- The test of `findCandidateFiles` on the name of a regular file. -/
def isCandidateName (name : Str) : Bool :=
  hasPrefix name "candidate-".toList && hasSuffix name ".md".toList

/-- The callback of `findCandidateFiles`, run over the walk until it returns
an error. -/
def walkLoop : List WalkEntry → List Str → List Str × Option Str
  | [], candidateFiles => (candidateFiles, none)
  | e :: es, candidateFiles =>
    match e.err with
    | some err => (candidateFiles, some err)
    | none =>
      if !e.isRegular then walkLoop es candidateFiles
      else if isCandidateName e.name then walkLoop es (candidateFiles ++ [e.path])
      else walkLoop es candidateFiles

/-- `findCandidateFiles`. -/
def findCandidateFiles (env : Env) (electionPath : Str) : List Str × Option Str :=
  walkLoop (env.walk electionPath) []

/-- `loadElectionConfig`: `none` stands for the `nil` configuration. -/
def loadElectionConfig (env : Env) (electionPath : Str) : Option ElectionConfig × Option Str :=
  let configPath := env.joinPath electionPath "election.yaml".toList
  match env.readFile configPath with
  | .error err => (none, some err)
  | .ok content =>
    match env.unmarshalConfig content with
    | .error err => (none, some err)
    | .ok config => (some config, none)

/-! ## `countWords` -/

/-- The expression `\s+`. -/
def wsRegex : Re := Re.plus (.cls isReSpace)

/-- The loop of `(*Regexp).allMatches`: successive matches as pairs of
offsets; an empty match right after the previous match is dropped. -/
def allMatches (re : Re) (s : Str) : Nat → Nat → Option Nat → List (Nat × Nat)
  | 0, _, _ => []
  | fuel + 1, pos, prevMatchEnd =>
    if s.length < pos then []
    else
      match searchFrom re pos (s.drop pos) with
      | none => []
      | some (b, st) =>
        let accept := !(st.off == pos && prevMatchEnd == some b)
        let pos' := if st.off == pos then pos + 1 else st.off
        if accept then (b, st.off) :: allMatches re s fuel pos' (some st.off)
        else allMatches re s fuel pos' (some st.off)

/-- `(*Regexp).FindAllStringIndex(s, -1)`. -/
def findAllStringIndex (re : Re) (s : Str) : List (Nat × Nat) :=
  allMatches re s (s.length + 2) 0 none

/-- The loop of `(*Regexp).Split` over the matches, and the last piece. -/
def splitPieces (s : Str) : List (Nat × Nat) → Nat → Nat → List Str
  | [], beg, end_ => if end_ ≠ s.length then [s.drop beg] else []
  | (b, e) :: ms, beg, _ =>
    if e ≠ 0 then slice s beg b :: splitPieces s ms e b else splitPieces s ms e b

/-- `(*Regexp).Split(s, -1)` for a non-empty expression. -/
def reSplit (re : Re) (s : Str) : List Str :=
  if s = [] then [[]] else splitPieces s (findAllStringIndex re s) 0 0

/-- The counting loop of `countWords` on the file's text. -/
def countTokens (content : Str) : Nat :=
  ((reSplit wsRegex content).filter (fun word => trimSpace word != [])).length

/-- `countWords`: the count and the error. -/
def countWords (env : Env) (filename : Str) : Nat × Option Str :=
  match env.readFile filename with
  | .error err => (0, some err)
  | .ok content => (countTokens content, none)

/-! ## `validateFileNameAndID` -/

/-- The class `[a-zA-Z0-9_-]`. -/
def isIdChar (c : Char) : Bool :=
  ('a' ≤ c && c ≤ 'z') || ('A' ≤ c && c ≤ 'Z') || ('0' ≤ c && c ≤ '9') || c == '_' || c == '-'

/-- The expression `^candidate-([a-zA-Z0-9_-]+)\.md$`. -/
def candidateRegex : Re :=
  .seq .bol (.seq (Re.lit "candidate-".toList) (.seq (.group (Re.plus (.cls isIdChar)))
    (.seq (Re.lit ".md".toList) .eol)))

/-- The message for a file name of the wrong form. -/
def errFileName : Str := "filename must follow format 'candidate-username.md'".toList

/-- The message for a file name and an ID that differ. -/
def errMismatch (expectedUsername actualUsername : Str) : Str :=
  "filename username '".toList ++ expectedUsername ++ "' does not match ID '".toList ++
    actualUsername ++ "' in header".toList

/-- `validateFileNameAndID`: the error's message, `none` for `nil`. -/
def validateFileNameAndID (env : Env) (filename : Str) : Option Str :=
  let base := filepathBase filename
  let matches_ := findStringSubmatch candidateRegex base
  if matches_.length ≠ 2 then some errFileName
  else
    let expectedUsername := matches_.getD 1 []
    match env.readFile filename with
    | .error err => some ("error reading file: ".toList ++ err)
    | .ok content =>
      match extractYAMLHeader content with
      | (_, some err) => some ("error extracting YAML header: ".toList ++ err)
      | (yamlHeader, none) =>
        match env.unmarshalMap yamlHeader with
        | .error err => some ("error parsing YAML header: ".toList ++ err)
        | .ok header =>
          match header "ID".toList with
          | none => some "missing 'ID' field in header".toList
          | some (.str actualUsername) =>
            if trimSpace actualUsername ≠ expectedUsername then
              some (errMismatch expectedUsername (trimSpace actualUsername))
            else none
          | some _ => some "'ID' field must be a string".toList

/-! ## `validateRequiredFields`, `validateRequiredSections` -/

/-- The map `infoFields` of `validateRequiredFields`: a `map[string]bool`,
with `false` for the keys never set. -/
def buildInfoFields (info : List (List (Str × Str))) : Str → Bool :=
  info.foldl (fun m infoItem =>
    infoItem.foldl (fun m' kv => fun key => if key = kv.1 then true else m' key) m)
    (fun _ => false)

/-- The first required field that `infoFields` lacks, as the error. -/
def checkRequired (infoFields : Str → Bool) : List Str → Option Str
  | [] => none
  | requiredField :: rest =>
    if !infoFields requiredField then
      some ("missing required info field: ".toList ++ requiredField)
    else checkRequired infoFields rest

/-- `validateRequiredFields`. -/
def validateRequiredFields (env : Env) (filename : Str) (config : ElectionConfig) : Option Str :=
  match env.readFile filename with
  | .error err => some ("error reading file: ".toList ++ err)
  | .ok content =>
    match extractYAMLHeader content with
    | (_, some err) => some ("error extracting YAML header: ".toList ++ err)
    | (yamlHeader, none) =>
      match env.unmarshalHeader yamlHeader with
      | .error err => some ("invalid YAML header format: ".toList ++ err)
      | .ok header =>
        if header.Name = [] then some "missing required field: name".toList
        else if header.ID = [] then some "missing required field: ID".toList
        else if config.ShowCandidateFields.length > 0 then
          checkRequired (buildInfoFields header.Info) config.ShowCandidateFields
        else none

/-- The loop of `validateRequiredSections` over the sections. -/
def checkSections (contentStr : Str) : List Str → Option Str
  | [] => none
  | section_ :: rest =>
    if !strContains contentStr section_ then
      some ("missing required section: ".toList ++ section_)
    else checkSections contentStr rest

/-- `validateRequiredSections`. -/
def validateRequiredSections (env : Env) (filename : Str) (sections : List Str) : Option Str :=
  match env.readFile filename with
  | .error err => some ("error reading file: ".toList ++ err)
  | .ok content => checkSections content sections

/-! ## `main` -/

/-- The command line after `flag.Parse`: the three flags, `os.Args[0]` and
the positional arguments. -/
structure Flags where
  prog : Str
  maxWords : Int
  recommendedWords : Int
  requiredSections : Str
  args : List Str
  /-- The text `flag.PrintDefaults` writes. -/
  defaults : Str

/-- What a run leaves behind: the exit status and the two output streams. -/
structure RunResult where
  exitCode : Nat
  stdout : List Str
  stderr : List Str

/-- The body of the loop of `main` over the candidate files (lines 97-139);
the state is the slice `errors` and what was written to standard error. -/
def checkCandidate (env : Env) (maxWords : Int) (config : ElectionConfig) (sections : List Str)
    (state : List ValidationError × List Str) (candidateFile : Str) :
    List ValidationError × List Str :=
  let wordCheck : Except Str (List ValidationError) :=
    if maxWords > 0 then
      match countWords env candidateFile with
      | (_, some err) =>
        .error ("Error counting words in ".toList ++ candidateFile ++ ": ".toList ++ err ++
          "\n".toList)
      | (wordCount, none) =>
        if (wordCount : Int) > maxWords then
          .ok (state.1 ++ [⟨candidateFile, "has ".toList ++ fmtD wordCount ++ " words".toList⟩])
        else .ok state.1
    else .ok state.1
  match wordCheck with
  | .error msg => (state.1, state.2 ++ [msg])
  | .ok errors1 =>
    let errors2 :=
      match validateFileNameAndID env candidateFile with
      | some err => errors1 ++ [⟨candidateFile, err⟩]
      | none => errors1
    let errors3 :=
      match validateRequiredFields env candidateFile config with
      | some err => errors2 ++ [⟨candidateFile, err⟩]
      | none => errors2
    let errors4 :=
      if sections.length > 0 then
        match validateRequiredSections env candidateFile sections with
        | some err => errors3 ++ [⟨candidateFile, err⟩]
        | none => errors3
      else errors3
    (errors4, state.2)

/-- The loop of `main` over the candidate files. -/
def collectErrors (env : Env) (maxWords : Int) (config : ElectionConfig) (sections : List Str)
    (candidateFiles : List Str) : List ValidationError × List Str :=
  candidateFiles.foldl (checkCandidate env maxWords config sections) ([], [])

/-- The parsing of the flag `required-sections` in `main` (lines 87-93). -/
def parseSections (requiredSections : Str) : List Str :=
  if requiredSections ≠ [] then (strSplit ',' requiredSections).map trimSpace else []

/-- The report of `main` for a non-empty slice `errors` (lines 142-153). -/
def report (errors : List ValidationError) (recommendedWords : Int) : List Str :=
  let separator := List.replicate 68 '='
  errors.map (fun err => err.File ++ ": ".toList ++ err.Message ++ "\n".toList) ++
  ["\n".toList ++ separator ++ "\n".toList,
   fmtD errors.length ++ " invalid candidate bio(s) detected.\n".toList] ++
  (if recommendedWords > 0 then
    ["Bios should be limited to around ".toList ++ (toString recommendedWords).toList ++
      " words, excluding headers.\n".toList]
   else []) ++
  ["Bios must follow the nomination template and filename format.\n".toList,
   separator ++ "\n".toList]

/-- The loading of the configuration in `main` (lines 68-72): the loaded
configuration, or the empty one and a warning. -/
def loadConfigOrEmpty (env : Env) (electionPath : Str) : ElectionConfig × List Str :=
  match loadElectionConfig env electionPath with
  | (_, some err) =>
    (⟨[]⟩, ["Warning: Could not load election.yaml: ".toList ++ err ++ "\n".toList])
  | (some config, none) => (config, [])
  | (none, none) => (⟨[]⟩, [])

/-- The function `main`. -/
def main (env : Env) (flags : Flags) : RunResult :=
  match flags.args with
  | [] =>
    ⟨1, [], ["Usage: ".toList ++ flags.prog ++ " [flags] <election-path>\n".toList,
      flags.defaults]⟩
  | electionPath :: _ =>
    let config := (loadConfigOrEmpty env electionPath).1
    let warn := (loadConfigOrEmpty env electionPath).2
    match findCandidateFiles env electionPath with
    | (_, some err) =>
      ⟨1, [], warn ++ ["Error finding candidate files: ".toList ++ err ++ "\n".toList]⟩
    | (candidateFiles, none) =>
      if candidateFiles.length = 0 then
        ⟨1, [], warn ++ ["No candidate files found in ".toList ++ electionPath ++ "\n".toList]⟩
      else
        let sections := parseSections flags.requiredSections
        let result := collectErrors env flags.maxWords config sections candidateFiles
        if result.1.length > 0 then
          ⟨1, report result.1 flags.recommendedWords, warn ++ result.2⟩
        else
          ⟨0, ["All ".toList ++ fmtD candidateFiles.length ++
            " candidate bio(s) validated successfully.\n".toList], warn ++ result.2⟩

/-- The line `l` is `---` followed only by white space (of the class `\s`). -/
def isCloseLine (l : Str) : Bool :=
  "---".toList.isPrefixOf l && (l.drop 3).all isReSpace

/-- The lines of a text: its pieces between newlines. -/
def textLines (s : Str) : List Str := strSplit '\n' s

/-- The number of maximal runs of characters that are no white space, counted
at the start of each run; `prevSpace` tells that no run is under way. -/
def countRunsFrom (prevSpace : Bool) : Str → Nat
  | [] => 0
  | c :: t => (if prevSpace && !isSpace c then 1 else 0) + countRunsFrom (isSpace c) t

/-- The number of maximal runs of characters that are no white space. -/
def countRuns (t : Str) : Nat := countRunsFrom true t

/-- Printable ASCII, space, tab, newline, carriage return and form feed. -/
def isTextChar (c : Char) : Bool :=
  (0x20 ≤ c.toNat && c.toNat ≤ 0x7E) || c == '\t' || c == '\n' || c == '\r' || c == '\x0c'

/-- The name `key` is a key of one of the mappings of the list `info`. -/
def HasInfoKey (info : List (List (Str × Str))) (key : Str) : Prop :=
  ∃ item ∈ info, ∃ kv ∈ item, kv.1 = key

/-- The entry that a check adds to `errors`: one for an error, none for `nil`. -/
def errorEntry (candidateFile : Str) : Option Str → List ValidationError
  | some err => [⟨candidateFile, err⟩]
  | none => []

/-- The entries of the three checks of a file other than the word count: the
file name and ID, the required fields, and the required sections when the
list of sections is not empty. -/
def otherEntries (env : Env) (config : ElectionConfig) (sections : List Str)
    (candidateFile : Str) : List ValidationError :=
  errorEntry candidateFile (validateFileNameAndID env candidateFile) ++
  errorEntry candidateFile (validateRequiredFields env candidateFile config) ++
  (if sections ≠ [] then
    errorEntry candidateFile (validateRequiredSections env candidateFile sections)
   else [])

/-- The entry of the word-count check of a file: one when the maximum is
positive and the count of the file exceeds it. -/
def wordCountEntries (env : Env) (maxWords : Int) (candidateFile : Str) :
    List ValidationError :=
  if 0 < maxWords ∧ maxWords < ((countWords env candidateFile).1 : Int) then
    [⟨candidateFile, "has ".toList ++ fmtD (countWords env candidateFile).1 ++ " words".toList⟩]
  else []

/-- The entries of the four checks of a file. -/
def fileEntries (env : Env) (maxWords : Int) (config : ElectionConfig) (sections : List Str)
    (candidateFile : Str) : List ValidationError :=
  wordCountEntries env maxWords candidateFile ++ otherEntries env config sections candidateFile

/-! ## Example inputs (the files of `main_test.go`) -/

/-- The opening delimiter: 61 dashes. -/
def dashes61 : Str := List.replicate 61 '-'

/-- The valid bio of the tests. -/
def validContent : Str :=
  dashes61 ++ ("\nname: Test User\nID: testuser\ninfo:\n  - employer: Test Corp\n" ++
    "  - slack: '@testuser'\n---\n## Bio content\n").toList

/-- The bio of the tests whose ID differs from the file name. -/
def mismatchContent : Str :=
  dashes61 ++ ("\nname: Test User\nID: differentuser\ninfo:\n  - employer: Test Corp\n" ++
    "---\n## Bio content\n").toList

/-- The bio of the tests without a name. -/
def noNameContent : Str :=
  dashes61 ++ "\nID: testuser\ninfo:\n  - employer: Test Corp\n---\n".toList

/-- The bio of the tests without an ID. -/
def noIdContent : Str :=
  dashes61 ++ "\nname: Test User\ninfo:\n  - employer: Test Corp\n---\n".toList

/-- The bio of the tests with two sections. -/
def sectionsContent : Str :=
  dashes61 ++ ("\nname: Test User\nID: testuser\n---\n## About Me\nSome content\n" ++
    "## Platform\nMore content\n").toList

/-- The example files, by path. -/
def exampleFiles : List (Str × Str) :=
  [("/e/candidate-testuser.md".toList, validContent),
   ("/e/sub/candidate-testuser.md".toList, mismatchContent),
   ("/e/candidate-noname.md".toList, noNameContent),
   ("/e/candidate-noid.md".toList, noIdContent),
   ("/e/candidate-sections.md".toList, sectionsContent),
   ("/e/words.txt".toList, "Hello, world! This is a test.".toList)]

/-- The headers of the example files, decoded as `CandidateHeader`. -/
def exampleHeaders : List (Str × CandidateHeader) :=
  [(("name: Test User\nID: testuser\ninfo:\n  - employer: Test Corp\n" ++
      "  - slack: '@testuser'").toList,
    ⟨"Test User".toList, "testuser".toList,
      [[("employer".toList, "Test Corp".toList)], [("slack".toList, "@testuser".toList)]]⟩),
   ("name: Test User\nID: differentuser\ninfo:\n  - employer: Test Corp".toList,
    ⟨"Test User".toList, "differentuser".toList, [[("employer".toList, "Test Corp".toList)]]⟩),
   ("ID: testuser\ninfo:\n  - employer: Test Corp".toList,
    ⟨[], "testuser".toList, [[("employer".toList, "Test Corp".toList)]]⟩),
   ("name: Test User\ninfo:\n  - employer: Test Corp".toList,
    ⟨"Test User".toList, [], [[("employer".toList, "Test Corp".toList)]]⟩),
   ("name: Test User\nID: testuser".toList, ⟨"Test User".toList, "testuser".toList, []⟩)]

/-- The scalar keys of a decoded example header, as a generic map. -/
def headerAsMap (h : CandidateHeader) (key : Str) : Option YamlValue :=
  if key = "name".toList then (if h.Name = [] then none else some (.str h.Name))
  else if key = "ID".toList then (if h.ID = [] then none else some (.str h.ID))
  else if key = "info".toList then some .composite
  else none

/-- An environment holding the example files; its decoders know the headers
of these files and reject any other text. -/
def exampleEnv : Env where
  readFile path :=
    match exampleFiles.lookup path with
    | some content => .ok content
    | none => .error ("open ".toList ++ path ++ ": no such file or directory".toList)
  unmarshalMap text :=
    match exampleHeaders.lookup text with
    | some h => .ok (headerAsMap h)
    | none => .error "yaml: not an example header".toList
  unmarshalHeader text :=
    match exampleHeaders.lookup text with
    | some h => .ok h
    | none => .error "yaml: not an example header".toList
  unmarshalConfig _ := .ok ⟨[]⟩
  walk root :=
    if root = "/e".toList then
      [⟨"/e".toList, "e".toList, false, none⟩,
       ⟨"/e/candidate-noid.md".toList, "candidate-noid.md".toList, true, none⟩,
       ⟨"/e/candidate-noname.md".toList, "candidate-noname.md".toList, true, none⟩,
       ⟨"/e/candidate-sections.md".toList, "candidate-sections.md".toList, true, none⟩,
       ⟨"/e/candidate-testuser.md".toList, "candidate-testuser.md".toList, true, none⟩,
       ⟨"/e/candidate-user3.txt".toList, "candidate-user3.txt".toList, true, none⟩,
       ⟨"/e/not-candidate.md".toList, "not-candidate.md".toList, true, none⟩,
       ⟨"/e/sub".toList, "sub".toList, false, none⟩,
       ⟨"/e/sub/candidate-testuser.md".toList, "candidate-testuser.md".toList, true, none⟩]
    else [⟨root, filepathBase root, false, some ("lstat ".toList ++ root ++
      ": no such file or directory".toList)⟩]
  joinPath a b := a ++ "/".toList ++ b

/-- A command line for the example directory: at most 17 words, two required
sections. -/
def exampleFlags : Flags where
  prog := "validate-bios".toList
  maxWords := 17
  recommendedWords := 0
  requiredSections := "## About Me, ## Platform".toList
  args := ["/e".toList]
  defaults := []

/-- The text `content` is 61 dashes, the white space `w1`, a newline, `hdr`,
a newline, `---`, the white space `w2`, a newline and `post`; white space is
the class `\s`. -/
def HeaderShape (content w1 hdr w2 post : Str) : Prop :=
  content = dashes61 ++ w1 ++ "\n".toList ++ hdr ++ "\n---".toList ++ w2 ++ "\n".toList ++ post ∧
  (∀ c ∈ w1, isReSpace c = true) ∧ (∀ c ∈ w2, isReSpace c = true)

/-- The string `hdr` is the header block of `content`: the text splits around
`hdr` as `HeaderShape` says, with the longest white space after the dashes that
any such split has and, among the splits with this white space, the shortest
block. -/
def IsHeaderOf (content hdr : Str) : Prop :=
  ∃ w1 w2 post, HeaderShape content w1 hdr w2 post ∧
    ∀ w1' hdr' w2' post', HeaderShape content w1' hdr' w2' post' →
      w1'.length < w1.length ∨ (w1'.length = w1.length ∧ hdr.length ≤ hdr'.length)

/-- The line `l` is 61 dashes followed only by white space (of the class `\s`). -/
def isOpenLine (l : Str) : Bool :=
  dashes61.isPrefixOf l && (l.drop 61).all isReSpace

/-- The text has a line that is `---` followed only by white space and that is
ended by a newline: such a line among all lines but the last. -/
def hasTerminatedCloseLine (B : Str) : Bool :=
  (textLines B).dropLast.any isCloseLine

/-- The number of candidate files that have an entry in `errors`. -/
def invalidFileCount (candidateFiles : List Str) (errors : List ValidationError) : Nat :=
  (candidateFiles.filter (fun f => errors.any (fun e => e.File == f))).length

/-- The example environment with every file holding the text `t`. -/
def textEnv (t : Str) : Env := { exampleEnv with readFile := fun _ => .ok t }

/-- The example environment with the text `t1` in the file of the empty name
and the text `t2` in every other file. -/
def pairEnv (t1 t2 : Str) : Env :=
  { exampleEnv with readFile := fun f => if f = [] then .ok t1 else .ok t2 }

/-- The example environment with the walk of every directory replaced. -/
def walkEnv (entries : List WalkEntry) : Env := { exampleEnv with walk := fun _ => entries }

/-- A walk that finds one candidate file, which cannot be read. -/
def ghostWalk : List WalkEntry :=
  [⟨"/g".toList, "g".toList, false, none⟩,
   ⟨"/g/candidate-ghost.md".toList, "candidate-ghost.md".toList, true, none⟩]

/-- A walk that finds one candidate file, the bio of the tests without an ID. -/
def noIdWalk : List WalkEntry :=
  [⟨"/e".toList, "e".toList, false, none⟩,
   ⟨"/e/candidate-noid.md".toList, "candidate-noid.md".toList, true, none⟩]

/-- A command line with the defaults of the flags, but for the maximum of
words. -/
def plainFlags (maxWords : Int) (electionPath : Str) : Flags where
  prog := "validate-bios".toList
  maxWords := maxWords
  recommendedWords := 0
  requiredSections := []
  args := [electionPath]
  defaults := []

/-! # Properties -/

set_option maxRecDepth 200000


/-! ## The matcher on one-character classes -/

theorem matchRe_cls_nil (p : Char → Bool) (off : Nat) (cap : Option Str)
    (k : MState → Option MState) :
    matchRe (.cls p) ⟨off, [], cap⟩ k = none := rfl

theorem matchRe_cls_cons (p : Char → Bool) (off : Nat) (c : Char) (t : Str) (cap : Option Str)
    (k : MState → Option MState) :
    matchRe (.cls p) ⟨off, c :: t, cap⟩ k = if p c then k ⟨off + 1, t, cap⟩ else none := rfl

theorem matchRe_seq (a b : Re) (st : MState) (k : MState → Option MState) :
    matchRe (.seq a b) st k = matchRe a st (fun st' => matchRe b st' k) := rfl

theorem matchRe_star_nil (g : Bool) (p : Char → Bool) (off : Nat) (cap : Option Str)
    (k : MState → Option MState) :
    matchRe (.star g (.cls p)) ⟨off, [], cap⟩ k = k ⟨off, [], cap⟩ := rfl

theorem matchRe_star_greedy_cons (p : Char → Bool) (off : Nat) (c : Char) (t : Str)
    (cap : Option Str) (k : MState → Option MState) :
    matchRe (.star true (.cls p)) ⟨off, c :: t, cap⟩ k =
      if p c then
        match matchRe (.star true (.cls p)) ⟨off + 1, t, cap⟩ k with
        | some r => some r
        | none => k ⟨off, c :: t, cap⟩
      else k ⟨off, c :: t, cap⟩ := by
  show starLoop _ true (t.length + 1) _ k = _
  rw [starLoop]
  simp only [if_true, matchRe_cls_cons]
  by_cases hp : p c
  · simp only [hp, if_true, List.length_cons, Nat.lt_succ_self]
    rfl
  · simp only [hp, Bool.false_eq_true, if_false]

theorem matchRe_star_lazy_cons (p : Char → Bool) (off : Nat) (c : Char) (t : Str)
    (cap : Option Str) (k : MState → Option MState) :
    matchRe (.star false (.cls p)) ⟨off, c :: t, cap⟩ k =
      match k ⟨off, c :: t, cap⟩ with
      | some r => some r
      | none => if p c then matchRe (.star false (.cls p)) ⟨off + 1, t, cap⟩ k else none := by
  show starLoop _ false (t.length + 1) _ k = _
  rw [starLoop]
  simp only [Bool.false_eq_true, if_false, matchRe_cls_cons]
  by_cases hp : p c
  · simp only [hp, if_true, List.length_cons, Nat.lt_succ_self]
    rfl
  · simp only [hp, Bool.false_eq_true, if_false]

theorem matchRe_chr_cons (d : Char) (off : Nat) (c : Char) (t : Str) (cap : Option Str)
    (k : MState → Option MState) :
    matchRe (Re.chr d) ⟨off, c :: t, cap⟩ k = if c = d then k ⟨off + 1, t, cap⟩ else none := by
  unfold Re.chr
  rw [matchRe_cls_cons]
  by_cases h : c = d <;> simp [h]

/-- A literal matches its own text and moves past it. -/
theorem matchRe_lit_append (w : Str) (off : Nat) (t : Str) (cap : Option Str)
    (k : MState → Option MState) :
    matchRe (Re.lit w) ⟨off, w ++ t, cap⟩ k = k ⟨off + w.length, t, cap⟩ := by
  induction w generalizing off with
  | nil => rfl
  | cons c cs ih =>
    show matchRe (.seq (Re.chr c) (Re.lit cs)) ⟨off, c :: (cs ++ t), cap⟩ k = _
    rw [matchRe_seq, matchRe_chr_cons, if_pos rfl, ih]
    simp only [List.length_cons]
    congr 2
    omega

/-- A literal matches only its own text. -/
theorem matchRe_lit_some (w : Str) (off : Nat) (rest : Str) (cap : Option Str)
    (k : MState → Option MState) (v : MState)
    (h : matchRe (Re.lit w) ⟨off, rest, cap⟩ k = some v) :
    ∃ t, rest = w ++ t ∧ k ⟨off + w.length, t, cap⟩ = some v := by
  induction w generalizing off rest with
  | nil => exact ⟨rest, rfl, h⟩
  | cons c cs ih =>
    cases rest with
    | nil => exact absurd h (by simp [Re.lit, matchRe_seq, Re.chr, matchRe_cls_nil])
    | cons d ds =>
      have h' : matchRe (.seq (Re.chr c) (Re.lit cs)) ⟨off, d :: ds, cap⟩ k = some v := h
      rw [matchRe_seq, matchRe_chr_cons] at h'
      by_cases hd : d = c
      · rw [if_pos hd] at h'
        obtain ⟨t, ht, hk⟩ := ih _ _ h'
        refine ⟨t, by rw [hd, ht]; rfl, ?_⟩
        rw [← hk]
        simp only [List.length_cons]
        congr 2
        omega
      · rw [if_neg hd] at h'
        exact absurd h' (by simp)

/-- A counted repetition of one character matches that many copies of it. -/
theorem matchRe_rep_append (n : Nat) (c : Char) (off : Nat) (t : Str) (cap : Option Str)
    (k : MState → Option MState) :
    matchRe (Re.rep n (Re.chr c)) ⟨off, List.replicate n c ++ t, cap⟩ k = k ⟨off + n, t, cap⟩ := by
  induction n generalizing off with
  | zero => rfl
  | succ n ih =>
    show matchRe (.seq (Re.chr c) (Re.rep n (Re.chr c))) ⟨off, c :: (List.replicate n c ++ t), cap⟩ k
      = _
    rw [matchRe_seq, matchRe_chr_cons, if_pos rfl, ih]
    congr 2
    omega

/-- A counted repetition of one character matches only copies of it. -/
theorem matchRe_rep_some (n : Nat) (c : Char) (off : Nat) (rest : Str) (cap : Option Str)
    (k : MState → Option MState) (v : MState)
    (h : matchRe (Re.rep n (Re.chr c)) ⟨off, rest, cap⟩ k = some v) :
    ∃ t, rest = List.replicate n c ++ t ∧ k ⟨off + n, t, cap⟩ = some v := by
  induction n generalizing off rest with
  | zero => exact ⟨rest, rfl, h⟩
  | succ n ih =>
    cases rest with
    | nil => exact absurd h (by simp [Re.rep, matchRe_seq, Re.chr, matchRe_cls_nil])
    | cons d ds =>
      have h' : matchRe (.seq (Re.chr c) (Re.rep n (Re.chr c))) ⟨off, d :: ds, cap⟩ k = some v := h
      rw [matchRe_seq, matchRe_chr_cons] at h'
      by_cases hd : d = c
      · rw [if_pos hd] at h'
        obtain ⟨t, ht, hk⟩ := ih _ _ h'
        refine ⟨t, by rw [hd, ht]; rfl, ?_⟩
        rw [← hk]
        congr 2
        omega
      · rw [if_neg hd] at h'
        exact absurd h' (by simp)

/-- A repetition of a class, greedy or lazy, consumes characters of the class. -/
theorem matchRe_star_some (g : Bool) (p : Char → Bool) (off : Nat) (rest : Str)
    (cap : Option Str) (k : MState → Option MState) (v : MState)
    (h : matchRe (.star g (.cls p)) ⟨off, rest, cap⟩ k = some v) :
    ∃ w t, rest = w ++ t ∧ (∀ c ∈ w, p c = true) ∧ k ⟨off + w.length, t, cap⟩ = some v := by
  induction rest generalizing off with
  | nil =>
    rw [matchRe_star_nil] at h
    exact ⟨[], [], rfl, by simp, h⟩
  | cons c t ih =>
    have step : ∀ (hp : p c = true)
        (h2 : matchRe (.star g (.cls p)) ⟨off + 1, t, cap⟩ k = some v),
        ∃ w t', c :: t = w ++ t' ∧ (∀ c ∈ w, p c = true) ∧
          k ⟨off + w.length, t', cap⟩ = some v := by
      intro hp h2
      obtain ⟨w, t', ht, hw, hk⟩ := ih _ h2
      refine ⟨c :: w, t', by rw [ht]; rfl, ?_, ?_⟩
      · intro d hd
        rcases List.mem_cons.mp hd with rfl | hd
        · exact hp
        · exact hw d hd
      · rw [← hk]
        simp only [List.length_cons]
        congr 2
        omega
    have here : k ⟨off, c :: t, cap⟩ = some v →
        ∃ w t', c :: t = w ++ t' ∧ (∀ c ∈ w, p c = true) ∧
          k ⟨off + w.length, t', cap⟩ = some v :=
      fun hk => ⟨[], c :: t, rfl, by simp, hk⟩
    cases g with
    | true =>
      rw [matchRe_star_greedy_cons] at h
      by_cases hp : p c = true
      · rw [if_pos hp] at h
        cases h2 : matchRe (.star true (.cls p)) ⟨off + 1, t, cap⟩ k with
        | some r =>
          rw [h2] at h
          exact step hp (h2.trans h)
        | none =>
          rw [h2] at h
          exact here h
      · rw [if_neg hp] at h
        exact here h
    | false =>
      rw [matchRe_star_lazy_cons] at h
      cases h1 : k ⟨off, c :: t, cap⟩ with
      | some r =>
        rw [h1] at h
        exact here (h1.trans h)
      | none =>
        rw [h1] at h
        by_cases hp : p c = true
        · rw [if_pos hp] at h
          exact step hp h
        · rw [if_neg hp] at h
          exact absurd h (by simp)

/-- A greedy repetition stops where the class stops. -/
theorem matchRe_star_greedy_stop (p : Char → Bool) (off : Nat) (t : Str) (cap : Option Str)
    (k : MState → Option MState) (ht : ∀ c ∈ t.head?, p c = false) :
    matchRe (.star true (.cls p)) ⟨off, t, cap⟩ k = k ⟨off, t, cap⟩ := by
  cases t with
  | nil => rfl
  | cons c t =>
    rw [matchRe_star_greedy_cons, if_neg]
    simp [ht c (by simp)]

/-- A greedy repetition prefers the longer run: a success after the run `w`
is the result from before it. -/
theorem matchRe_star_greedy_append (p : Char → Bool) (w : Str) (off : Nat) (t : Str)
    (cap : Option Str) (k : MState → Option MState) (v : MState)
    (hw : ∀ c ∈ w, p c = true)
    (h : matchRe (.star true (.cls p)) ⟨off + w.length, t, cap⟩ k = some v) :
    matchRe (.star true (.cls p)) ⟨off, w ++ t, cap⟩ k = some v := by
  induction w generalizing off with
  | nil => exact h
  | cons c cs ih =>
    show matchRe (.star true (.cls p)) ⟨off, c :: (cs ++ t), cap⟩ k = some v
    rw [matchRe_star_greedy_cons, if_pos (hw c (by simp))]
    have h' : matchRe (.star true (.cls p)) ⟨off + 1 + cs.length, t, cap⟩ k = some v := by
      rw [← h]
      simp only [List.length_cons]
      congr 2
      omega
    rw [ih _ (fun d hd => hw d (by simp [hd])) h']

/-- A lazy repetition stops at the first place where the rest matches. -/
theorem matchRe_star_lazy_append (p : Char → Bool) (w : Str) (off : Nat) (t : Str)
    (cap : Option Str) (k : MState → Option MState) (v : MState)
    (hw : ∀ c ∈ w, p c = true)
    (hk : ∀ w1 c w2, w = w1 ++ c :: w2 → k ⟨off + w1.length, c :: w2 ++ t, cap⟩ = none)
    (h : matchRe (.star false (.cls p)) ⟨off + w.length, t, cap⟩ k = some v) :
    matchRe (.star false (.cls p)) ⟨off, w ++ t, cap⟩ k = some v := by
  induction w generalizing off with
  | nil => exact h
  | cons c cs ih =>
    show matchRe (.star false (.cls p)) ⟨off, c :: (cs ++ t), cap⟩ k = some v
    rw [matchRe_star_lazy_cons]
    have h0 := hk [] c cs rfl
    simp only [List.length_nil, Nat.add_zero, List.cons_append] at h0
    rw [h0]
    simp only
    rw [if_pos (hw c (by simp))]
    apply ih
    · exact fun d hd => hw d (by simp [hd])
    · intro w1 d w2 hcs
      have := hk (c :: w1) d w2 (by rw [hcs]; rfl)
      rw [← this]
      simp only [List.length_cons]
      congr 2
      omega
    · rw [← h]
      simp only [List.length_cons]
      congr 2
      omega

theorem matchRe_group (r : Re) (st : MState) (k : MState → Option MState) :
    matchRe (.group r) st k = matchRe r st (fun st' =>
      k { st' with cap := some (st.rest.take (st.rest.length - st'.rest.length)) }) := rfl

theorem matchRe_bol (st : MState) (k : MState → Option MState) :
    matchRe .bol st k = if st.off = 0 then k st else none := rfl

theorem matchRe_eol_some (off : Nat) (rest : Str) (cap : Option Str)
    (k : MState → Option MState) (v : MState)
    (h : matchRe .eol ⟨off, rest, cap⟩ k = some v) :
    rest = [] ∧ k ⟨off, [], cap⟩ = some v := by
  cases rest with
  | nil => exact ⟨rfl, h⟩
  | cons c t => exact absurd h (by simp [matchRe])

/-- An expression anchored by `^` matches at offset 0 or not at all. -/
theorem searchFrom_bol_pos (r : Re) (off : Nat) (s : Str) (h : 0 < off) :
    searchFrom (.seq .bol r) off s = none := by
  induction s generalizing off with
  | nil =>
    simp only [searchFrom, matchRe_seq, matchRe_bol]
    rw [if_neg (by omega)]
  | cons c t ih =>
    simp only [searchFrom, matchRe_seq, matchRe_bol]
    rw [if_neg (by omega)]
    exact ih (off + 1) (by omega)

/-- `FindStringSubmatch` for an expression anchored by `^`. -/
theorem findStringSubmatch_bol (r : Re) (s : Str) :
    findStringSubmatch (.seq .bol r) s =
      match matchRe r ⟨0, s, none⟩ some with
      | none => []
      | some st => [slice s 0 st.off, st.cap.getD []] := by
  unfold findStringSubmatch
  cases s with
  | nil =>
    simp only [searchFrom, matchRe_seq, matchRe_bol, if_true]
    cases matchRe r ⟨0, [], none⟩ some <;> rfl
  | cons c t =>
    simp only [searchFrom, matchRe_seq, matchRe_bol, if_true]
    cases matchRe r ⟨0, c :: t, none⟩ some with
    | some st => rfl
    | none =>
      simp only
      rw [searchFrom_bol_pos r 1 t (by omega)]

/-! ## The file-name expression -/

theorem isIdChar_dot : isIdChar '.' = false := by decide

/-- The file-name expression matches `candidate-<u>.md` and captures `u`. -/
theorem candidateRegex_match (u : Str) (hne : u ≠ []) (hu : ∀ c ∈ u, isIdChar c = true) :
    findStringSubmatch candidateRegex ("candidate-".toList ++ u ++ ".md".toList) =
      ["candidate-".toList ++ u ++ ".md".toList, u] := by
  obtain ⟨c, cs, rfl⟩ := List.exists_cons_of_ne_nil hne
  unfold candidateRegex
  rw [findStringSubmatch_bol, List.append_assoc, matchRe_seq, matchRe_lit_append, matchRe_seq,
    matchRe_group]
  unfold Re.plus
  rw [matchRe_seq]
  show (match matchRe (.cls isIdChar) ⟨_, c :: (cs ++ ".md".toList), none⟩ _ with
    | none => []
    | some st => [slice _ 0 st.off, st.cap.getD []]) = _
  rw [matchRe_cls_cons, if_pos (hu c (by simp))]
  rw [matchRe_star_greedy_append isIdChar cs _ ".md".toList none _
    ⟨0 + "candidate-".toList.length + 1 + cs.length + ".md".toList.length, [],
      some (c :: cs)⟩ (fun d hd => hu d (by simp [hd]))]
  · simp [slice]
    omega
  · rw [matchRe_star_greedy_stop _ _ _ _ _ (by simp [isIdChar_dot])]
    simp only
    rw [matchRe_seq]
    have := matchRe_lit_append ".md".toList (0 + "candidate-".toList.length + 1 + cs.length) []
    rw [List.append_nil] at this
    rw [this]
    simp [matchRe]

/-- The file-name expression matches only names `candidate-<u>.md`. -/
theorem candidateRegex_some (base : Str) (h : findStringSubmatch candidateRegex base ≠ []) :
    ∃ u, u ≠ [] ∧ (∀ c ∈ u, isIdChar c = true) ∧
      base = "candidate-".toList ++ u ++ ".md".toList := by
  unfold candidateRegex at h
  rw [findStringSubmatch_bol] at h
  cases hm : matchRe (.seq (Re.lit "candidate-".toList) (.seq (.group (Re.plus (.cls isIdChar)))
      (.seq (Re.lit ".md".toList) .eol))) ⟨0, base, none⟩ some with
  | none => rw [hm] at h; exact absurd rfl h
  | some v =>
    rw [matchRe_seq] at hm
    obtain ⟨t, ht, hm1⟩ := matchRe_lit_some _ _ _ _ _ _ hm
    rw [matchRe_seq, matchRe_group] at hm1
    unfold Re.plus at hm1
    rw [matchRe_seq] at hm1
    cases t with
    | nil => exact absurd hm1 (by simp [matchRe_cls_nil])
    | cons c t =>
      rw [matchRe_cls_cons] at hm1
      by_cases hc : isIdChar c = true
      · rw [if_pos hc] at hm1
        obtain ⟨w, t', ht', hw, hm2⟩ := matchRe_star_some _ _ _ _ _ _ _ hm1
        simp only at hm2
        rw [matchRe_seq] at hm2
        obtain ⟨t3, ht3, hm3⟩ := matchRe_lit_some _ _ _ _ _ _ hm2
        obtain ⟨ht4, -⟩ := matchRe_eol_some _ _ _ _ _ hm3
        refine ⟨c :: w, by simp, ?_, by rw [ht, ht', ht3, ht4]; simp⟩
        intro d hd
        rcases List.mem_cons.mp hd with rfl | hd
        · exact hc
        · exact hw d hd
      · rw [if_neg hc] at hm1
        exact absurd hm1 (by simp)

/-! ## `strings.Contains` -/

theorem strContains_iff (s substr : Str) : strContains s substr = true ↔ substr <:+: s := by
  unfold strContains
  rw [List.any_eq_true]
  constructor
  · rintro ⟨t, ht, hp⟩
    rw [List.mem_tails] at ht
    exact (List.isPrefixOf_iff_prefix.mp hp).isInfix.trans ht.isInfix
  · rintro ⟨a, b, rfl⟩
    refine ⟨substr ++ b, ?_, ?_⟩
    · rw [List.mem_tails, List.append_assoc]
      exact List.suffix_append a (substr ++ b)
    · exact List.isPrefixOf_iff_prefix.mpr (List.prefix_append substr b)

/-! ## C1 -/

/-- C1. `validateFileNameAndID` on a file whose base name is `candidate-<u>.md`
(`u` non-empty, of letters, digits, `_`, `-`), whose content has an extractable
header and whose parsed header maps `ID` to the string `s`: it returns no error
exactly when `s` trimmed equals `u`; when they differ, the error is the mismatch
message, which contains both `u` and the trimmed `s`. -/
theorem validateFileNameAndID_id_match (env : Env) (filename u content yamlHeader : Str)
    (header : Str → Option YamlValue) (s : Str)
    (hbase : filepathBase filename = "candidate-".toList ++ u ++ ".md".toList)
    (hne : u ≠ []) (hu : ∀ c ∈ u, isIdChar c = true)
    (hread : env.readFile filename = .ok content)
    (hext : extractYAMLHeader content = (yamlHeader, none))
    (hparse : env.unmarshalMap yamlHeader = .ok header)
    (hid : header "ID".toList = some (.str s)) :
    (validateFileNameAndID env filename = none ↔ trimSpace s = u) ∧
    (trimSpace s ≠ u →
      validateFileNameAndID env filename = some (errMismatch u (trimSpace s)) ∧
      strContains (errMismatch u (trimSpace s)) u = true ∧
      strContains (errMismatch u (trimSpace s)) (trimSpace s) = true ∧
      strContains (errMismatch u (trimSpace s)) "does not match ID".toList = true) := by
  have hval : validateFileNameAndID env filename =
      if trimSpace s ≠ u then some (errMismatch u (trimSpace s)) else none := by
    unfold validateFileNameAndID
    simp only [hbase, candidateRegex_match u hne hu, hread, hext, hparse, hid]
    rfl
  constructor
  · rw [hval]
    by_cases h : trimSpace s = u <;> simp [h]
  · intro h
    rw [hval, if_pos h]
    refine ⟨rfl, ?_, ?_, ?_⟩
    · rw [strContains_iff]
      exact ⟨"filename username '".toList,
        "' does not match ID '".toList ++ trimSpace s ++ "' in header".toList,
        by simp [errMismatch]⟩
    · rw [strContains_iff]
      exact ⟨"filename username '".toList ++ u ++ "' does not match ID '".toList,
        "' in header".toList, by simp [errMismatch]⟩
    · rw [strContains_iff]
      exact ⟨"filename username '".toList ++ u ++ "' ".toList,
        " '".toList ++ trimSpace s ++ "' in header".toList, by simp [errMismatch]⟩

/-- Witness of C1 on the valid bio of the tests, `candidate-testuser.md` with
`ID: testuser`. -/
theorem validateFileNameAndID_id_match_witness :
    filepathBase "/e/candidate-testuser.md".toList = "candidate-testuser.md".toList ∧
    exampleEnv.readFile "/e/candidate-testuser.md".toList = .ok validContent ∧
    (extractYAMLHeader validContent).2 = none ∧
    validateFileNameAndID exampleEnv "/e/candidate-testuser.md".toList = none :=
  ⟨by decide, rfl, by decide,
    (validateFileNameAndID_id_match exampleEnv "/e/candidate-testuser.md".toList
      "testuser".toList validContent
      ("name: Test User\nID: testuser\ninfo:\n  - employer: Test Corp\n" ++
        "  - slack: '@testuser'").toList
      (headerAsMap ⟨"Test User".toList, "testuser".toList,
        [[("employer".toList, "Test Corp".toList)], [("slack".toList, "@testuser".toList)]]⟩)
      "testuser".toList (by decide) (by decide) (by decide) (by rfl) (by decide) (by rfl)
      (by rfl)).1.mpr (by decide)⟩

/-- The tests of `validateFileNameAndID`: the valid bio passes, the bio with
`ID: differentuser` fails with the mismatch message. -/
theorem validateFileNameAndID_examples :
    validateFileNameAndID exampleEnv "/e/candidate-testuser.md".toList = none ∧
    validateFileNameAndID exampleEnv "/e/sub/candidate-testuser.md".toList =
      some ("filename username 'testuser' does not match ID 'differentuser' " ++
        "in header").toList := by
  constructor <;> decide

/-! ## C2, C3: `validateRequiredFields` -/

theorem foldl_infoItem (item : List (Str × Str)) (m : Str → Bool) (key : Str) :
    (item.foldl (fun m' kv => fun key => if key = kv.1 then true else m' key) m) key = true ↔
      m key = true ∨ ∃ kv ∈ item, kv.1 = key := by
  induction item generalizing m with
  | nil => simp
  | cons kv rest ih =>
    rw [List.foldl_cons, ih]
    by_cases h : key = kv.1
    · simp [h]
    · have h' : ¬ kv.1 = key := fun e => h e.symm
      simp [h, h']

theorem foldl_info (info : List (List (Str × Str))) (m : Str → Bool) (key : Str) :
    (info.foldl (fun m infoItem =>
      infoItem.foldl (fun m' kv => fun key => if key = kv.1 then true else m' key) m) m) key
        = true ↔ m key = true ∨ HasInfoKey info key := by
  induction info generalizing m with
  | nil => simp [HasInfoKey]
  | cons item rest ih =>
    rw [List.foldl_cons, ih, foldl_infoItem]
    have hk : HasInfoKey (item :: rest) key ↔
        (∃ kv ∈ item, kv.1 = key) ∨ HasInfoKey rest key := by
      simp only [HasInfoKey, List.mem_cons, exists_eq_or_imp]
    rw [hk, or_assoc]

/-- The map `infoFields` holds exactly the keys of the mappings of `info`. -/
theorem buildInfoFields_iff (info : List (List (Str × Str))) (key : Str) :
    buildInfoFields info key = true ↔ HasInfoKey info key := by
  unfold buildInfoFields
  rw [foldl_info]
  simp

theorem checkRequired_none (m : Str → Bool) (req : List Str) :
    checkRequired m req = none ↔ ∀ f ∈ req, m f = true := by
  induction req with
  | nil => simp [checkRequired]
  | cons f rest ih =>
    unfold checkRequired
    by_cases h : m f = true
    · simp [h, ih]
    · simp [h]

theorem checkRequired_first (m : Str → Bool) (pre : List Str) (f : Str) (post : List Str)
    (hpre : ∀ g ∈ pre, m g = true) (hf : ¬ m f = true) :
    checkRequired m (pre ++ f :: post) = some ("missing required info field: ".toList ++ f) := by
  induction pre with
  | nil =>
    show checkRequired m (f :: post) = _
    unfold checkRequired
    simp [hf]
  | cons g rest ih =>
    show checkRequired m (g :: (rest ++ f :: post)) = _
    unfold checkRequired
    rw [if_neg (by simp [hpre g (by simp)])]
    exact ih (fun x hx => hpre x (by simp [hx]))

/-- The result of `validateRequiredFields` once the header is parsed. -/
theorem validateRequiredFields_parsed (env : Env) (filename content yamlHeader : Str)
    (header : CandidateHeader) (config : ElectionConfig)
    (hread : env.readFile filename = .ok content)
    (hext : extractYAMLHeader content = (yamlHeader, none))
    (hparse : env.unmarshalHeader yamlHeader = .ok header) :
    validateRequiredFields env filename config =
      if header.Name = [] then some "missing required field: name".toList
      else if header.ID = [] then some "missing required field: ID".toList
      else if config.ShowCandidateFields.length > 0 then
        checkRequired (buildInfoFields header.Info) config.ShowCandidateFields
      else none := by
  unfold validateRequiredFields
  simp only [hread, hext, hparse]

/-- C2. `validateRequiredFields` with a configuration without required info
fields, on any parsed header: an empty (or absent) name gives
`missing required field: name`; a non-empty name with an empty (or absent) ID
gives `missing required field: ID`; with both non-empty there is no error,
whatever the info list is. -/
theorem validateRequiredFields_no_required (env : Env) (filename content yamlHeader : Str)
    (header : CandidateHeader) (config : ElectionConfig)
    (hread : env.readFile filename = .ok content)
    (hext : extractYAMLHeader content = (yamlHeader, none))
    (hparse : env.unmarshalHeader yamlHeader = .ok header)
    (hcfg : config.ShowCandidateFields = []) :
    (header.Name = [] →
      validateRequiredFields env filename config = some "missing required field: name".toList) ∧
    (header.Name ≠ [] → header.ID = [] →
      validateRequiredFields env filename config = some "missing required field: ID".toList) ∧
    (header.Name ≠ [] → header.ID ≠ [] → validateRequiredFields env filename config = none) := by
  rw [validateRequiredFields_parsed env filename content yamlHeader header config hread hext
    hparse, hcfg]
  refine ⟨fun h => by simp [h], fun h1 h2 => by simp [h1, h2], fun h1 h2 => by simp [h1, h2]⟩

/-- Witness of C2 on the bio of the tests without an ID. -/
theorem validateRequiredFields_no_required_witness :
    exampleEnv.readFile "/e/candidate-noid.md".toList = .ok noIdContent ∧
    (extractYAMLHeader noIdContent).2 = none ∧
    validateRequiredFields exampleEnv "/e/candidate-noid.md".toList ⟨[]⟩ =
      some "missing required field: ID".toList :=
  ⟨rfl, by decide,
    (validateRequiredFields_no_required exampleEnv "/e/candidate-noid.md".toList noIdContent
      "name: Test User\ninfo:\n  - employer: Test Corp".toList
      ⟨"Test User".toList, [], [[("employer".toList, "Test Corp".toList)]]⟩ ⟨[]⟩
      (by rfl) (by decide) (by rfl) rfl).2.1 (by decide) rfl⟩

/-- The tests of `validateRequiredFields` without required info fields. -/
theorem validateRequiredFields_examples :
    validateRequiredFields exampleEnv "/e/candidate-testuser.md".toList ⟨[]⟩ = none ∧
    validateRequiredFields exampleEnv "/e/candidate-noname.md".toList ⟨[]⟩ =
      some "missing required field: name".toList ∧
    validateRequiredFields exampleEnv "/e/candidate-testuser.md".toList
      ⟨["employer".toList, "slack".toList]⟩ = none := by
  refine ⟨?_, ?_, ?_⟩ <;> decide

/-- C3. `validateRequiredFields` on a header with non-empty name and ID and a
non-empty list of required info fields: there is no error exactly when every
required name is a key of some mapping of the info list; otherwise the error
names the first required name, in configuration order, that is no key.  The
result depends on the info list through its set of keys only: two files whose
info lists have the same keys (reordered, duplicated) get the same result. -/
theorem validateRequiredFields_info (env : Env) (filename content yamlHeader : Str)
    (header : CandidateHeader) (config : ElectionConfig)
    (hread : env.readFile filename = .ok content)
    (hext : extractYAMLHeader content = (yamlHeader, none))
    (hparse : env.unmarshalHeader yamlHeader = .ok header)
    (hname : header.Name ≠ []) (hID : header.ID ≠ [])
    (hcfg : config.ShowCandidateFields ≠ []) :
    (validateRequiredFields env filename config = none ↔
      ∀ f ∈ config.ShowCandidateFields, HasInfoKey header.Info f) ∧
    (∀ pre f post, config.ShowCandidateFields = pre ++ f :: post →
      (∀ g ∈ pre, HasInfoKey header.Info g) → ¬ HasInfoKey header.Info f →
      validateRequiredFields env filename config =
        some ("missing required info field: ".toList ++ f)) ∧
    (∀ filename2 content2 yamlHeader2 header2,
      env.readFile filename2 = .ok content2 →
      extractYAMLHeader content2 = (yamlHeader2, none) →
      env.unmarshalHeader yamlHeader2 = .ok header2 →
      header2.Name ≠ [] → header2.ID ≠ [] →
      (∀ key, HasInfoKey header2.Info key ↔ HasInfoKey header.Info key) →
      validateRequiredFields env filename2 config =
        validateRequiredFields env filename config) := by
  have hlen : config.ShowCandidateFields.length > 0 := List.length_pos.mpr hcfg
  have hval : ∀ fn c y (h : CandidateHeader), env.readFile fn = .ok c →
      extractYAMLHeader c = (y, none) → env.unmarshalHeader y = .ok h →
      h.Name ≠ [] → h.ID ≠ [] →
      validateRequiredFields env fn config =
        checkRequired (buildInfoFields h.Info) config.ShowCandidateFields := by
    intro fn c y h h1 h2 h3 h4 h5
    rw [validateRequiredFields_parsed env fn c y h config h1 h2 h3]
    simp [h4, h5, hlen]
  rw [hval filename content yamlHeader header hread hext hparse hname hID]
  refine ⟨?_, ?_, ?_⟩
  · rw [checkRequired_none]
    exact forall₂_congr (fun f _ => buildInfoFields_iff header.Info f)
  · intro pre f post hreq hpre hf
    rw [hreq]
    exact checkRequired_first _ pre f post
      (fun g hg => (buildInfoFields_iff _ _).mpr (hpre g hg))
      (fun h => hf ((buildInfoFields_iff _ _).mp h))
  · intro fn2 c2 y2 h2 hr2 he2 hp2 hn2 hi2 hkeys
    rw [hval fn2 c2 y2 h2 hr2 he2 hp2 hn2 hi2]
    have hfun : buildInfoFields h2.Info = buildInfoFields header.Info := by
      funext key
      rw [Bool.eq_iff_iff, buildInfoFields_iff, buildInfoFields_iff]
      exact hkeys key
    rw [hfun]

/-- Witness of C3: the valid bio of the tests, with `employer`, `slack` and
`location` required, fails naming `location`. -/
theorem validateRequiredFields_info_witness :
    exampleEnv.readFile "/e/candidate-testuser.md".toList = .ok validContent ∧
    (extractYAMLHeader validContent).2 = none ∧
    validateRequiredFields exampleEnv "/e/candidate-testuser.md".toList
      ⟨["employer".toList, "slack".toList, "location".toList]⟩ =
      some "missing required info field: location".toList :=
  ⟨rfl, by decide,
    (validateRequiredFields_info exampleEnv "/e/candidate-testuser.md".toList validContent
      ("name: Test User\nID: testuser\ninfo:\n  - employer: Test Corp\n" ++
        "  - slack: '@testuser'").toList
      ⟨"Test User".toList, "testuser".toList,
        [[("employer".toList, "Test Corp".toList)], [("slack".toList, "@testuser".toList)]]⟩
      ⟨["employer".toList, "slack".toList, "location".toList]⟩
      (by rfl) (by decide) (by rfl) (by decide) (by decide) (by decide)).2.1
      ["employer".toList, "slack".toList] "location".toList [] rfl
      (by
        intro g hg
        unfold HasInfoKey
        rcases List.mem_cons.mp hg with rfl | hg
        · decide
        · rcases List.mem_cons.mp hg with rfl | hg
          · decide
          · exact absurd hg (List.not_mem_nil g))
      (by unfold HasInfoKey; decide)⟩

/-! ## C4: `validateRequiredSections` -/

theorem checkSections_none (text : Str) (sections : List Str) :
    checkSections text sections = none ↔ ∀ s ∈ sections, s <:+: text := by
  induction sections with
  | nil => simp [checkSections]
  | cons s rest ih =>
    unfold checkSections
    by_cases h : strContains text s = true
    · simp [h, ih, (strContains_iff text s).mp h]
    · have h' : ¬ s <:+: text := fun hs => h ((strContains_iff text s).mpr hs)
      simp [h, h']

theorem checkSections_first (text : Str) (pre : List Str) (s : Str) (post : List Str)
    (hpre : ∀ g ∈ pre, g <:+: text) (hs : ¬ s <:+: text) :
    checkSections text (pre ++ s :: post) = some ("missing required section: ".toList ++ s) := by
  induction pre with
  | nil =>
    show checkSections text (s :: post) = _
    unfold checkSections
    have h : ¬ strContains text s = true := fun h => hs ((strContains_iff text s).mp h)
    simp [h]
  | cons g rest ih =>
    show checkSections text (g :: (rest ++ s :: post)) = _
    unfold checkSections
    rw [if_neg (by simp [(strContains_iff text g).mpr (hpre g (by simp))])]
    exact ih (fun x hx => hpre x (by simp [hx]))

/-- C4. `validateRequiredSections` on a file with text `text` and any list of
section strings: there is no error exactly when every string of the list is a
substring of the text (so the empty list passes); otherwise the one error
returned is `missing required section: <s>` for the first string `s`, in list
order, that is no substring. -/
theorem validateRequiredSections_substring (env : Env) (filename text : Str)
    (sections : List Str) (hread : env.readFile filename = .ok text) :
    (validateRequiredSections env filename sections = none ↔ ∀ s ∈ sections, s <:+: text) ∧
    (sections = [] → validateRequiredSections env filename sections = none) ∧
    (∀ pre s post, sections = pre ++ s :: post → (∀ g ∈ pre, g <:+: text) → ¬ s <:+: text →
      validateRequiredSections env filename sections =
        some ("missing required section: ".toList ++ s)) := by
  have hval : validateRequiredSections env filename sections = checkSections text sections := by
    unfold validateRequiredSections
    simp only [hread]
  rw [hval]
  refine ⟨checkSections_none text sections, ?_, ?_⟩
  · rintro rfl
    rfl
  · rintro pre s post rfl hpre hs
    exact checkSections_first text pre s post hpre hs

/-- Witness of C4: the bio of the tests with the sections `## About Me` and
`## Platform` fails for `## Experience`. -/
theorem validateRequiredSections_substring_witness :
    exampleEnv.readFile "/e/candidate-sections.md".toList = .ok sectionsContent ∧
    validateRequiredSections exampleEnv "/e/candidate-sections.md".toList
      ["## About Me".toList, "## Platform".toList, "## Experience".toList] =
      some "missing required section: ## Experience".toList :=
  ⟨rfl,
    (validateRequiredSections_substring exampleEnv "/e/candidate-sections.md".toList
      sectionsContent ["## About Me".toList, "## Platform".toList, "## Experience".toList]
      (by rfl)).2.2 ["## About Me".toList, "## Platform".toList] "## Experience".toList [] rfl
      (by
        intro g hg
        rcases List.mem_cons.mp hg with rfl | hg
        · exact (strContains_iff _ _).mp (by decide)
        · rcases List.mem_cons.mp hg with rfl | hg
          · exact (strContains_iff _ _).mp (by decide)
          · exact absurd hg (List.not_mem_nil g))
      (fun h => absurd ((strContains_iff _ _).mpr h) (by decide))⟩

/-- The tests of `validateRequiredSections` that pass. -/
theorem validateRequiredSections_examples :
    validateRequiredSections exampleEnv "/e/candidate-sections.md".toList
      ["## About Me".toList, "## Platform".toList] = none ∧
    validateRequiredSections exampleEnv "/e/candidate-sections.md".toList [] = none := by
  constructor <;> decide

/-! ## Lines of a text -/

theorem strSplit_ne_nil (sep : Char) (s : Str) : strSplit sep s ≠ [] := by
  cases s with
  | nil => simp [strSplit]
  | cons c t =>
    unfold strSplit
    split
    · simp
    · split <;> simp

/-- The text after a separator contributes its pieces to the whole. -/
theorem mem_strSplit_tail (sep : Char) (a s : Str) (l : Str) (h : l ∈ strSplit sep s) :
    l ∈ (strSplit sep (a ++ sep :: s)).tail := by
  induction a with
  | nil =>
    show l ∈ (strSplit sep (sep :: s)).tail
    unfold strSplit
    simpa using h
  | cons c a ih =>
    show l ∈ (strSplit sep (c :: (a ++ sep :: s))).tail
    unfold strSplit
    split
    · exact List.mem_of_mem_tail ih
    · split
      · rename_i heq
        exact absurd heq (strSplit_ne_nil _ _)
      · rename_i piece pieces heq
        rw [heq] at ih
        exact ih

theorem mem_strSplit_append (sep : Char) (a s : Str) (l : Str) (h : l ∈ strSplit sep s) :
    l ∈ strSplit sep (a ++ sep :: s) :=
  List.mem_of_mem_tail (mem_strSplit_tail sep a s l h)

/-- The first piece of a text is the text up to its first separator. -/
theorem head_strSplit (sep : Char) (s : Str) :
    (strSplit sep s).head? = some (s.takeWhile (fun c => c != sep)) := by
  induction s with
  | nil => rfl
  | cons c t ih =>
    unfold strSplit
    by_cases h : (c == sep) = true
    · have hc : c = sep := by simpa using h
      simp [hc]
    · have h' : (c != sep) = true := by simp [bne, h]
      rw [if_neg h, List.takeWhile_cons, if_pos h']
      split
      · rename_i heq
        exact absurd heq (strSplit_ne_nil _ _)
      · rename_i piece pieces heq
        rw [heq] at ih
        simp only [List.head?_cons, Option.some.injEq] at ih
        simp [ih]

theorem firstLine_mem_strSplit (sep : Char) (s : Str) :
    s.takeWhile (fun c => c != sep) ∈ strSplit sep s :=
  List.mem_of_mem_head? (head_strSplit sep s)

theorem takeWhile_ne_append (sep : Char) (a b : Str) :
    (a ++ sep :: b).takeWhile (fun c => c != sep) = a.takeWhile (fun c => c != sep) := by
  induction a with
  | nil => simp
  | cons c a ih =>
    show (c :: (a ++ sep :: b)).takeWhile _ = _
    rw [List.takeWhile_cons, List.takeWhile_cons, ih]

theorem takeWhile_subset {p : Char → Bool} (q : Char → Bool) (x : Str)
    (hx : ∀ c ∈ x, p c = true) : ∀ c ∈ x.takeWhile q, p c = true :=
  fun c hc => hx c ((List.takeWhile_sublist q).subset hc)

/-! ## The header expression -/

theorem matchRe_chr_some (d : Char) (off : Nat) (rest : Str) (cap : Option Str)
    (k : MState → Option MState) (v : MState)
    (h : matchRe (Re.chr d) ⟨off, rest, cap⟩ k = some v) :
    ∃ t, rest = d :: t ∧ k ⟨off + 1, t, cap⟩ = some v := by
  cases rest with
  | nil => exact absurd h (by simp [Re.chr, matchRe_cls_nil])
  | cons c t =>
    rw [matchRe_chr_cons] at h
    by_cases hc : c = d
    · rw [if_pos hc] at h
      exact ⟨t, by rw [hc], h⟩
    · rw [if_neg hc] at h
      exact absurd h (by simp)

/-- A greedy repetition followed by something that succeeds after the run `w`
succeeds (maybe further on). -/
theorem matchRe_star_greedy_isSome (p : Char → Bool) (w : Str) (off : Nat) (t : Str)
    (cap : Option Str) (k : MState → Option MState)
    (hw : ∀ c ∈ w, p c = true)
    (h : (matchRe (.star true (.cls p)) ⟨off + w.length, t, cap⟩ k).isSome = true) :
    (matchRe (.star true (.cls p)) ⟨off, w ++ t, cap⟩ k).isSome = true := by
  induction w generalizing off with
  | nil => exact h
  | cons c cs ih =>
    show (matchRe (.star true (.cls p)) ⟨off, c :: (cs ++ t), cap⟩ k).isSome = true
    rw [matchRe_star_greedy_cons, if_pos (hw c (by simp))]
    have h' : (matchRe (.star true (.cls p)) ⟨off + 1 + cs.length, t, cap⟩ k).isSome = true := by
      rw [← h]
      simp only [List.length_cons]
      congr 3
      omega
    have := ih (off + 1) (fun d hd => hw d (by simp [hd])) h'
    cases hm : matchRe (.star true (.cls p)) ⟨off + 1, cs ++ t, cap⟩ k with
    | some r => rfl
    | none => rw [hm] at this; exact absurd this (by simp)

/-- The closing part matches only `\n---`, white space and a newline. -/
theorem dashClose_some (off : Nat) (rest : Str) (cap : Option Str) (v : MState)
    (h : matchRe dashClose ⟨off, rest, cap⟩ some = some v) :
    ∃ w2 post, rest = "\n---".toList ++ w2 ++ '\n' :: post ∧
      (∀ c ∈ w2, isReSpace c = true) ∧ v.cap = cap := by
  unfold dashClose at h
  rw [matchRe_seq] at h
  obtain ⟨t5, ht5, h1⟩ := matchRe_lit_some _ _ _ _ _ _ h
  rw [matchRe_seq] at h1
  obtain ⟨w2, t6, ht6, hw2, h2⟩ := matchRe_star_some _ _ _ _ _ _ _ h1
  obtain ⟨post, hpost, h3⟩ := matchRe_chr_some _ _ _ _ _ _ h2
  refine ⟨w2, post, by rw [ht5, ht6, hpost, List.append_assoc], hw2, ?_⟩
  rw [← Option.some.inj h3]

/-- The closing part matches `\n---`, white space and a newline. -/
theorem dashClose_isSome (off : Nat) (w2 post : Str) (cap : Option Str)
    (hw2 : ∀ c ∈ w2, isReSpace c = true) :
    ∃ v, matchRe dashClose ⟨off, "\n---".toList ++ (w2 ++ '\n' :: post), cap⟩ some = some v ∧
      v.cap = cap := by
  have hsome : (matchRe dashClose ⟨off, "\n---".toList ++ (w2 ++ '\n' :: post), cap⟩
      some).isSome = true := by
    unfold dashClose
    rw [matchRe_seq, matchRe_lit_append, matchRe_seq]
    apply matchRe_star_greedy_isSome _ _ _ _ _ _ hw2
    rw [matchRe_star_greedy_cons, if_pos (by decide)]
    cases matchRe (.star true (.cls isReSpace))
      ⟨off + "\n---".toList.length + w2.length + 1, post, cap⟩
      (fun st' => matchRe (Re.chr '\n') st' some) with
    | some r => rfl
    | none =>
      simp only
      rw [matchRe_chr_cons, if_pos rfl]
      rfl
  obtain ⟨v, hv⟩ := Option.isSome_iff_exists.mp hsome
  obtain ⟨w, p, -, -, hcap⟩ := dashClose_some _ _ _ _ hv
  exact ⟨v, hv, hcap⟩

/-- The header expression matches only a text of the form: 61 dashes, white
space, a newline, the captured text, and the closing part. -/
theorem dashBody_some (content : Str) (v : MState)
    (h : matchRe dashBody ⟨0, content, none⟩ some = some v) :
    ∃ hdr w1 w2 post, v.cap = some hdr ∧
      content = dashes61 ++ w1 ++ '\n' :: (hdr ++ ("\n---".toList ++ w2 ++ '\n' :: post)) ∧
      (∀ c ∈ w1, isReSpace c = true) ∧ (∀ c ∈ w2, isReSpace c = true) := by
  unfold dashBody at h
  rw [matchRe_seq] at h
  obtain ⟨t1, ht1, h1⟩ := matchRe_rep_some _ _ _ _ _ _ _ h
  rw [matchRe_seq] at h1
  obtain ⟨w1, t2, ht2, hw1, h2⟩ := matchRe_star_some _ _ _ _ _ _ _ h1
  rw [matchRe_seq] at h2
  obtain ⟨t3, ht3, h3⟩ := matchRe_chr_some _ _ _ _ _ _ h2
  rw [matchRe_seq, matchRe_group] at h3
  obtain ⟨hdr, t4, ht4, -, h4⟩ := matchRe_star_some _ _ _ _ _ _ _ h3
  simp only at h4
  obtain ⟨w2, post, ht5, hw2, hcap⟩ := dashClose_some _ _ _ _ h4
  refine ⟨hdr, w1, w2, post, ?_, ?_, hw1, hw2⟩
  · rw [hcap, ht4]
    simp
  · rw [ht1, ht2, ht3, ht4, ht5]
    simp [dashes61]

/-- The two outcomes of `extractYAMLHeader`. -/
theorem extractYAMLHeader_eq (content : Str) :
    extractYAMLHeader content =
      match matchRe dashBody ⟨0, content, none⟩ some with
      | none => ([], some errNoHeader)
      | some v => (v.cap.getD [], none) := by
  unfold extractYAMLHeader dashRegex
  rw [findStringSubmatch_bol]
  cases matchRe dashBody ⟨0, content, none⟩ some <;> rfl

/-- A failed extraction returns the empty string and the error. -/
theorem extractYAMLHeader_error (content : Str) (h : (extractYAMLHeader content).2 ≠ none) :
    extractYAMLHeader content = ([], some errNoHeader) := by
  rw [extractYAMLHeader_eq] at h ⊢
  cases hm : matchRe dashBody ⟨0, content, none⟩ some with
  | none => rfl
  | some v => rw [hm] at h; exact absurd rfl h

/-- A successful extraction: the text is 61 dashes, white space, a newline,
the returned header, and a closing line. -/
theorem extractYAMLHeader_some (content : Str) (h : (extractYAMLHeader content).2 = none) :
    ∃ w1 w2 post,
      content = dashes61 ++ w1 ++
        '\n' :: ((extractYAMLHeader content).1 ++ ("\n---".toList ++ w2 ++ '\n' :: post)) ∧
      (∀ c ∈ w1, isReSpace c = true) ∧ (∀ c ∈ w2, isReSpace c = true) := by
  rw [extractYAMLHeader_eq] at h ⊢
  cases hm : matchRe dashBody ⟨0, content, none⟩ some with
  | none => rw [hm] at h; exact absurd h (by simp)
  | some v =>
    obtain ⟨hdr, w1, w2, post, hcap, hc, hw1, hw2⟩ := dashBody_some content v hm
    refine ⟨w1, w2, post, ?_, hw1, hw2⟩
    simp only [hcap, Option.getD_some]
    exact hc

/-- A lazy repetition stops at once where the rest matches. -/
theorem matchRe_star_lazy_here (p : Char → Bool) (off : Nat) (t : Str) (cap : Option Str)
    (k : MState → Option MState) (v : MState) (h : k ⟨off, t, cap⟩ = some v) :
    matchRe (.star false (.cls p)) ⟨off, t, cap⟩ k = some v := by
  cases t with
  | nil => rw [matchRe_star_nil, h]
  | cons c t => rw [matchRe_star_lazy_cons, h]

/-- The closing part does not match inside a text none of whose lines is
`---` followed by white space, when a newline follows that text. -/
theorem dashClose_inside (B w1' : Str) (c : Char) (w2' T' : Str) (off : Nat) (cap : Option Str)
    (hB : B = w1' ++ c :: w2')
    (hlines : ∀ l ∈ strSplit '\n' B, ∀ ws, l = "---".toList ++ ws →
      ¬ ∀ c ∈ ws, isReSpace c = true) :
    matchRe dashClose ⟨off, c :: w2' ++ '\n' :: T', cap⟩ some = none := by
  cases hres : matchRe dashClose ⟨off, c :: w2' ++ '\n' :: T', cap⟩ some with
  | none => rfl
  | some v =>
    exfalso
    obtain ⟨x, post, heq, hx, -⟩ := dashClose_some _ _ _ _ hres
    have heq' : c :: (w2' ++ '\n' :: T') = '\n' :: (['-', '-', '-'] ++ (x ++ '\n' :: post)) := by
      rw [List.append_assoc] at heq
      exact heq
    obtain ⟨hc, htail⟩ := List.cons.inj heq'
    have hline : w2'.takeWhile (fun c => c != '\n') =
        "---".toList ++ x.takeWhile (fun c => c != '\n') := by
      have := congrArg (List.takeWhile (fun c => c != '\n')) htail
      rw [takeWhile_ne_append] at this
      rw [this]
      show (['-', '-', '-'] ++ (x ++ '\n' :: post)).takeWhile _ = _
      simp only [List.cons_append, List.nil_append, List.takeWhile_cons]
      rw [if_pos (by decide), takeWhile_ne_append]
      rfl
    have hmem : w2'.takeWhile (fun c => c != '\n') ∈ strSplit '\n' B := by
      rw [hB, hc]
      exact mem_strSplit_append '\n' w1' w2' _ (firstLine_mem_strSplit '\n' w2')
    exact hlines _ hmem _ hline (takeWhile_subset _ x hx)

/-- The extraction returns the body between the delimiter lines: the text
`B`, which starts with a character that is no white space and has no line that
is `---` followed by white space, when the opening line is 61 dashes and white
space `w1`, the closing line `---` and white space `w2`. -/
theorem extractYAMLHeader_body (w1 B w2 R : Str) (b : Char) (B' : Str) (hB : B = b :: B')
    (hb : isReSpace b = false)
    (hw1 : ∀ c ∈ w1, isReSpace c = true) (hw2 : ∀ c ∈ w2, isReSpace c = true)
    (hlines : ∀ l ∈ strSplit '\n' B, ∀ ws, l = "---".toList ++ ws →
      ¬ ∀ c ∈ ws, isReSpace c = true) :
    extractYAMLHeader
      (dashes61 ++ w1 ++ '\n' :: (B ++ ("\n---".toList ++ (w2 ++ '\n' :: R)))) = (B, none) := by
  obtain ⟨v, hv, hcap⟩ := dashClose_isSome (0 + 61 + w1.length + 1 + B.length) w2 R (some B) hw2
  have hm : matchRe dashBody
      ⟨0, dashes61 ++ w1 ++ '\n' :: (B ++ ("\n---".toList ++ (w2 ++ '\n' :: R))), none⟩ some
      = some v := by
    unfold dashBody dashes61
    rw [List.append_assoc, matchRe_seq, matchRe_rep_append, matchRe_seq]
    apply matchRe_star_greedy_append _ w1 _ _ _ _ v hw1
    rw [matchRe_star_greedy_cons, if_pos (by decide)]
    have hstop : matchRe (.star true (.cls isReSpace))
        ⟨0 + 61 + w1.length + 1, B ++ ("\n---".toList ++ (w2 ++ '\n' :: R)), none⟩
        (fun st' => matchRe (.seq (Re.chr '\n')
          (.seq (.group (.star false (.cls isAny))) dashClose)) st' some) = none := by
      rw [matchRe_star_greedy_stop _ _ _ _ _ (by rw [hB]; simp [hb])]
      rw [hB, matchRe_seq]
      show matchRe (Re.chr '\n') ⟨_, b :: _, none⟩ _ = none
      rw [matchRe_chr_cons, if_neg]
      rintro rfl
      exact absurd hb (by decide)
    rw [hstop]
    simp only
    rw [matchRe_seq, matchRe_chr_cons, if_pos rfl, matchRe_seq, matchRe_group]
    apply matchRe_star_lazy_append isAny B _ _ _ _ v (fun _ _ => rfl)
    · intro w1' c w2' hBsplit
      show matchRe dashClose ⟨_, c :: w2' ++ '\n' :: _, _⟩ some = none
      exact dashClose_inside B w1' c w2' _ _ _ hBsplit hlines
    · apply matchRe_star_lazy_here
      rw [List.length_append, Nat.add_sub_cancel, List.take_left' rfl]
      exact hv
  rw [extractYAMLHeader_eq, hm]
  simp [hcap]

theorem isCloseLine_iff (l : Str) :
    isCloseLine l = true ↔ ∃ ws, l = "---".toList ++ ws ∧ ∀ c ∈ ws, isReSpace c = true := by
  unfold isCloseLine
  rw [Bool.and_eq_true, List.isPrefixOf_iff_prefix, List.all_eq_true]
  constructor
  · rintro ⟨⟨ws, rfl⟩, hall⟩
    exact ⟨ws, rfl, by simpa using hall⟩
  · rintro ⟨ws, rfl, hall⟩
    exact ⟨List.prefix_append _ _, by simpa using hall⟩

/-! ## C5 -/

/-- C5. `extractYAMLHeader` returns exactly the interior text: for a body `B`
whose first character is no white space and none of whose lines is `---`
followed only by white space, strings `w1` and `w2` of spaces and tabs and any
remainder `R`, the text made of 61 dashes, `w1`, a newline, `B`, a newline,
`---`, `w2`, a newline and `R` gives `B`, without error. -/
theorem extractYAMLHeader_interior (w1 B w2 R : Str)
    (hw1 : ∀ c ∈ w1, c = ' ' ∨ c = '\t') (hw2 : ∀ c ∈ w2, c = ' ' ∨ c = '\t')
    (hB : ∃ b, B.head? = some b ∧ isReSpace b = false)
    (hlines : ∀ l ∈ textLines B, isCloseLine l = false) :
    extractYAMLHeader (List.replicate 61 '-' ++ w1 ++ "\n".toList ++ B ++ "\n---".toList ++ w2 ++
      "\n".toList ++ R) = (B, none) := by
  obtain ⟨b, hb, hbs⟩ := hB
  obtain ⟨B', rfl⟩ : ∃ B', B = b :: B' := by
    cases B with
    | nil => exact absurd hb (by simp)
    | cons c B' => exact ⟨B', by simp at hb; rw [hb]⟩
  have hsp : ∀ w : Str, (∀ c ∈ w, c = ' ' ∨ c = '\t') → ∀ c ∈ w, isReSpace c = true := by
    intro w hw c hc
    rcases hw c hc with rfl | rfl <;> decide
  have := extractYAMLHeader_body w1 (b :: B') w2 R b B' rfl hbs (hsp w1 hw1) (hsp w2 hw2)
    (fun l hl ws hws hall => by
      have := hlines l hl
      rw [(isCloseLine_iff l).mpr ⟨ws, hws, hall⟩] at this
      exact absurd this (by simp))
  rw [← this]
  congr 1
  simp [dashes61]

/-- Witness of C5: the test with white space after both delimiter lines. -/
theorem extractYAMLHeader_interior_witness :
    extractYAMLHeader (List.replicate 61 '-' ++ "   ".toList ++ "\n".toList ++
      "name: Test User\nID: testuser".toList ++ "\n---".toList ++ "  ".toList ++ "\n".toList ++
      "## Bio content\n---\n".toList) = ("name: Test User\nID: testuser".toList, none) :=
  extractYAMLHeader_interior "   ".toList "name: Test User\nID: testuser".toList "  ".toList
    "## Bio content\n---\n".toList (by decide) (by decide) ⟨'n', rfl, by decide⟩ (by decide)

/-- The tests of `extractYAMLHeader`. -/
theorem extractYAMLHeader_examples :
    extractYAMLHeader validContent =
      (("name: Test User\nID: testuser\ninfo:\n  - employer: Test Corp\n" ++
        "  - slack: '@testuser'").toList, none) ∧
    extractYAMLHeader (List.replicate 60 '-' ++ "\nname: Test User\n---\n".toList) =
      ([], some errNoHeader) ∧
    extractYAMLHeader "Just some content without header".toList = ([], some errNoHeader) ∧
    extractYAMLHeader (List.replicate 61 '-' ++
      "   \nname: Test User\nID: testuser\n---  \n## Bio content\n".toList) =
      ("name: Test User\nID: testuser".toList, none) := by
  refine ⟨?_, ?_, ?_, ?_⟩ <;> decide

/-! ## C6 -/

theorem takeWhile_replicate_append (n : Nat) (c : Char) (rest : Str)
    (hrest : ∀ d ∈ rest.head?, d ≠ c) :
    (List.replicate n c ++ rest).takeWhile (fun d => d == c) = List.replicate n c := by
  induction n with
  | zero =>
    cases rest with
    | nil => rfl
    | cons d t =>
      have hd : d ≠ c := hrest d (by simp)
      simp [List.takeWhile_cons, hd]
  | succ n ih =>
    rw [List.replicate_succ, List.cons_append, List.takeWhile_cons]
    simp [ih]

/-- A text on which the extraction succeeds starts with exactly 61 dashes. -/
theorem extractYAMLHeader_dashes (n : Nat) (rest : Str) (hrest : ∀ c ∈ rest.head?, c ≠ '-')
    (h : (extractYAMLHeader (List.replicate n '-' ++ rest)).2 = none) : n = 61 := by
  obtain ⟨w1, w2, post, hc, hw1, -⟩ := extractYAMLHeader_some _ h
  generalize (extractYAMLHeader (List.replicate n '-' ++ rest)).1 = hdr at hc
  have h1 := takeWhile_replicate_append n '-' rest hrest
  rw [hc, dashes61, List.append_assoc, takeWhile_replicate_append 61 '-'] at h1
  · have := congrArg List.length h1
    simpa using this.symm
  · intro d hd
    cases w1 with
    | nil =>
      simp at hd
      rw [← hd]
      decide
    | cons e w1 =>
      simp at hd
      rw [← hd]
      rintro rfl
      exact absurd (hw1 _ (List.mem_cons_self _ _)) (by decide)

/-- A text on which the extraction succeeds has a line that is `---` followed
only by white space. -/
theorem extractYAMLHeader_closeLine (content : Str)
    (h : (extractYAMLHeader content).2 = none) :
    ∃ l ∈ textLines content, isCloseLine l = true := by
  obtain ⟨w1, w2, post, hc, -, hw2⟩ := extractYAMLHeader_some _ h
  generalize (extractYAMLHeader content).1 = hdr at hc
  refine ⟨"---".toList ++ w2.takeWhile (fun c => c != '\n'), ?_, ?_⟩
  · have hline : ("---".toList ++ (w2 ++ '\n' :: post)).takeWhile (fun c => c != '\n') =
        "---".toList ++ w2.takeWhile (fun c => c != '\n') := by
      show (['-', '-', '-'] ++ (w2 ++ '\n' :: post)).takeWhile _ = _
      simp only [List.cons_append, List.nil_append, List.takeWhile_cons]
      rw [if_pos (by decide), takeWhile_ne_append]
      rfl
    have hmem := mem_strSplit_append '\n' (dashes61 ++ w1 ++ '\n' :: hdr)
      ("---".toList ++ (w2 ++ '\n' :: post)) _ (firstLine_mem_strSplit '\n' _)
    rw [hline] at hmem
    unfold textLines
    rw [hc]
    have hshape : dashes61 ++ w1 ++ '\n' :: (hdr ++ ("\n---".toList ++ w2 ++ '\n' :: post)) =
        (dashes61 ++ w1 ++ '\n' :: hdr) ++ '\n' :: ("---".toList ++ (w2 ++ '\n' :: post)) := by
      show _ = (dashes61 ++ w1 ++ '\n' :: hdr) ++ '\n' :: (['-', '-', '-'] ++ (w2 ++ '\n' :: post))
      show dashes61 ++ w1 ++ '\n' :: (hdr ++ (['\n', '-', '-', '-'] ++ w2 ++ '\n' :: post)) = _
      simp
    rw [hshape]
    exact hmem
  · exact (isCloseLine_iff _).mpr ⟨_, rfl, takeWhile_subset _ w2 hw2⟩

/-- C6. `extractYAMLHeader` fails, returning the empty string and the error,
when a delimiter is absent or malformed: on a text that starts with exactly
`n` dashes for an `n` other than 61 (so on a first line of 60 or of 62 dashes),
whatever follows; and on a text without a line made of `---` and white space,
even if it starts with 61 dashes. -/
theorem extractYAMLHeader_fails (n : Nat) (rest content : Str) (hn : n ≠ 61)
    (hrest : ∀ c ∈ rest.head?, c ≠ '-')
    (hlines : ∀ l ∈ textLines content, isCloseLine l = false) :
    extractYAMLHeader (List.replicate n '-' ++ rest) = ([], some errNoHeader) ∧
    extractYAMLHeader content = ([], some errNoHeader) := by
  constructor
  · apply extractYAMLHeader_error
    intro h
    exact hn (extractYAMLHeader_dashes n rest hrest h)
  · apply extractYAMLHeader_error
    intro h
    obtain ⟨l, hl, hclose⟩ := extractYAMLHeader_closeLine content h
    rw [hlines l hl] at hclose
    exact absurd hclose (by simp)

/-- Witness of C6: a first line of 62 dashes, and 61 dashes without a closing
line. -/
theorem extractYAMLHeader_fails_witness :
    extractYAMLHeader (List.replicate 62 '-' ++ "\nname: Test User\n---\n".toList) =
      ([], some errNoHeader) ∧
    extractYAMLHeader (List.replicate 61 '-' ++ "\nname: Test User\n--- x\n".toList) =
      ([], some errNoHeader) :=
  extractYAMLHeader_fails 62 "\nname: Test User\n---\n".toList
    (List.replicate 61 '-' ++ "\nname: Test User\n--- x\n".toList) (by decide) (by decide)
    (by decide)

/-! ## C7: `countWords` -/

/-- A greedy repetition of a class at the end of an expression takes the
longest run. -/
theorem matchRe_star_greedy_end (p : Char → Bool) (off : Nat) (rest : Str) (cap : Option Str) :
    matchRe (.star true (.cls p)) ⟨off, rest, cap⟩ some =
      some ⟨off + (rest.takeWhile p).length, rest.dropWhile p, cap⟩ := by
  induction rest generalizing off with
  | nil => rfl
  | cons c t ih =>
    rw [matchRe_star_greedy_cons]
    by_cases hp : p c = true
    · rw [if_pos hp, ih]
      simp only [List.takeWhile_cons, List.dropWhile_cons, hp, if_true, List.length_cons]
      congr 2
      omega
    · rw [if_neg hp]
      simp [List.takeWhile_cons, List.dropWhile_cons, hp]

theorem matchRe_wsRegex_cons (off : Nat) (c : Char) (t : Str) :
    matchRe wsRegex ⟨off, c :: t, none⟩ some =
      if isReSpace c = true then
        some ⟨off + 1 + (t.takeWhile isReSpace).length, t.dropWhile isReSpace, none⟩
      else none := by
  unfold wsRegex Re.plus
  rw [matchRe_seq, matchRe_cls_cons]
  by_cases h : isReSpace c = true
  · rw [if_pos h, if_pos h, matchRe_star_greedy_end]
  · rw [if_neg h, if_neg h]

/-- The leftmost match of `\s+`: the first run of white space, whole. -/
theorem searchFrom_wsRegex (off : Nat) (rest : Str) :
    searchFrom wsRegex off rest =
      match rest.dropWhile (fun c => !isReSpace c) with
      | [] => none
      | _ :: t =>
        some (off + (rest.takeWhile (fun c => !isReSpace c)).length,
          ⟨off + (rest.takeWhile (fun c => !isReSpace c)).length + 1 +
            (t.takeWhile isReSpace).length, t.dropWhile isReSpace, none⟩) := by
  induction rest generalizing off with
  | nil => rfl
  | cons c t ih =>
    unfold searchFrom
    rw [matchRe_wsRegex_cons]
    by_cases h : isReSpace c = true
    · simp [h, List.takeWhile_cons, List.dropWhile_cons]
    · rw [if_neg h]
      simp only
      rw [ih]
      have h' : isReSpace c = false := by simpa using h
      simp only [List.takeWhile_cons, List.dropWhile_cons, h', Bool.not_false, if_true,
        List.length_cons]
      cases t.dropWhile (fun c => !isReSpace c) with
      | nil => rfl
      | cons d t' =>
        simp only [Option.some.injEq, Prod.mk.injEq, MState.mk.injEq, and_true]
        omega

/-- The head of what `dropWhile` leaves does not satisfy the test. -/
theorem dropWhile_cons_head {p : Char → Bool} {l : Str} {c : Char} {t : Str}
    (h : l.dropWhile p = c :: t) : p c = false := by
  have := List.head_dropWhile_not p l (by rw [h]; simp)
  simpa [h] using this

theorem trimSpace_eq_nil_iff (s : Str) : trimSpace s = [] ↔ ∀ c ∈ s, isSpace c = true := by
  unfold trimSpace
  rw [List.reverse_eq_nil_iff, List.dropWhile_eq_nil_iff]
  constructor
  · intro h
    cases hd : s.dropWhile isSpace with
    | nil => exact List.dropWhile_eq_nil_iff.mp hd
    | cons d r =>
      have h1 := dropWhile_cons_head hd
      have h2 := h d (by rw [hd]; simp)
      rw [h1] at h2
      exact absurd h2 (by simp)
  · intro h
    rw [List.dropWhile_eq_nil_iff.mpr h]
    simp

/-- Runs in a text that starts with characters that are no white space. -/
theorem countRunsFrom_nonspace (pv : Bool) (a r : Str) (ha : ∀ c ∈ a, isSpace c = false) :
    countRunsFrom pv (a ++ r) =
      (if pv = true ∧ a ≠ [] then 1 else 0) + countRunsFrom (if a = [] then pv else false) r := by
  induction a generalizing pv with
  | nil => simp
  | cons c a ih =>
    rw [List.cons_append, countRunsFrom, ha c (by simp), ih false (fun d hd => ha d (by simp [hd]))]
    cases pv <;> simp

/-- White space at the start of a text adds no run. -/
theorem countRunsFrom_space (pv : Bool) (w r : Str) (hw : ∀ c ∈ w, isSpace c = true) :
    countRunsFrom pv (w ++ r) = countRunsFrom (if w = [] then pv else true) r := by
  induction w generalizing pv with
  | nil => simp
  | cons c w ih =>
    rw [List.cons_append, countRunsFrom, hw c (by simp), ih true (fun d hd => hw d (by simp [hd]))]
    simp

/-- The loop of `allMatches` for `\s+`, no white space left. -/
theorem allMatches_ws_none (s pre rest : Str) (fuel : Nat) (prev : Option Nat)
    (hs : s = pre ++ rest) (hd : rest.dropWhile (fun c => !isReSpace c) = []) :
    allMatches wsRegex s (fuel + 1) pre.length prev = [] := by
  unfold allMatches
  rw [if_neg (by rw [hs]; simp), hs, List.drop_left, searchFrom_wsRegex, hd]

/-- The loop of `allMatches` for `\s+`, at the next run of white space. -/
theorem allMatches_ws_cons (s pre rest : Str) (fuel : Nat) (prev : Option Nat) (c : Char)
    (t : Str) (hs : s = pre ++ rest) (hd : rest.dropWhile (fun c => !isReSpace c) = c :: t) :
    allMatches wsRegex s (fuel + 1) pre.length prev =
      (pre.length + (rest.takeWhile (fun c => !isReSpace c)).length,
        pre.length + (rest.takeWhile (fun c => !isReSpace c)).length + 1 +
          (t.takeWhile isReSpace).length) ::
      allMatches wsRegex s fuel
        (pre.length + (rest.takeWhile (fun c => !isReSpace c)).length + 1 +
          (t.takeWhile isReSpace).length)
        (some (pre.length + (rest.takeWhile (fun c => !isReSpace c)).length + 1 +
          (t.takeWhile isReSpace).length)) := by
  rw [allMatches]
  rw [if_neg (by rw [hs]; simp)]
  have hdrop : List.drop pre.length s = rest := by rw [hs, List.drop_left]
  rw [hdrop, searchFrom_wsRegex, hd]
  simp only
  have hne : (pre.length + (rest.takeWhile (fun c => !isReSpace c)).length + 1 +
      (t.takeWhile isReSpace).length == pre.length) = false := by
    rw [beq_eq_false_iff_ne]
    omega
  rw [hne]
  simp

/-- The pieces that `Split` produces from offset `pre.length` on, counted
when they are not blank, are the runs of the rest of the text. -/
theorem splitPieces_count (s : Str) (hsp : ∀ c ∈ s, isSpace c = isReSpace c) :
    ∀ (fuel : Nat) (pre rest : Str) (prev : Option Nat) (end_ : Nat),
      s = pre ++ rest → rest.length < fuel → end_ < s.length →
      ((splitPieces s (allMatches wsRegex s fuel pre.length prev) pre.length end_).filter
        (fun word => trimSpace word != [])).length = countRunsFrom true rest := by
  intro fuel
  induction fuel with
  | zero => intro pre rest prev end_ _ h; exact absurd h (by omega)
  | succ fuel ih =>
    intro pre rest prev end_ hs hfuel hend
    have hrest : ∀ c ∈ rest, isSpace c = isReSpace c :=
      fun c hc => hsp c (by rw [hs]; exact List.mem_append_right _ hc)
    cases hd : rest.dropWhile (fun c => !isReSpace c) with
    | nil =>
      rw [allMatches_ws_none s pre rest fuel prev hs hd]
      have hall : ∀ c ∈ rest, isSpace c = false := by
        intro c hc
        have := List.dropWhile_eq_nil_iff.mp hd c hc
        rw [hrest c hc]
        simpa using this
      have hdrop : List.drop pre.length s = rest := by rw [hs, List.drop_left]
      have hruns := countRunsFrom_nonspace true rest [] hall
      rw [List.append_nil] at hruns
      rw [hruns]
      simp only [splitPieces, if_pos (Nat.ne_of_lt hend), hdrop, List.filter_cons, List.filter_nil]
      cases rest with
      | nil => simp [trimSpace, countRunsFrom]
      | cons c t =>
        have hne : trimSpace (c :: t) ≠ [] := by
          intro h
          have := (trimSpace_eq_nil_iff _).mp h c (by simp)
          rw [hall c (by simp)] at this
          exact absurd this (by simp)
        simp [hne, countRunsFrom]
    | cons c t =>
      rw [allMatches_ws_cons s pre rest fuel prev c t hs hd]
      have hc : isReSpace c = true := by simpa using dropWhile_cons_head hd
      have hsplit : rest = rest.takeWhile (fun c => !isReSpace c) ++ c :: t := by
        rw [← hd, List.takeWhile_append_dropWhile]
      generalize ha : rest.takeWhile (fun c => !isReSpace c) = a at hsplit ⊢
      have hanon : ∀ d ∈ a, isSpace d = false := by
        intro d hd'
        have h1 : (!isReSpace d) = true := by
          rw [← ha] at hd'
          exact List.mem_takeWhile_imp (p := fun c => !isReSpace c) hd'
        rw [hrest d (by rw [hsplit]; exact List.mem_append_left _ hd')]
        simpa using h1
      have ht : t = t.takeWhile isReSpace ++ t.dropWhile isReSpace :=
        (List.takeWhile_append_dropWhile isReSpace t).symm
      generalize hrun : t.takeWhile isReSpace = run at ht ⊢
      generalize hrest' : t.dropWhile isReSpace = rest' at ht
      have hrunsp : ∀ d ∈ c :: run, isSpace d = true := by
        intro d hd'
        have hmem : d ∈ rest := by
          rw [hsplit, ht]
          rcases List.mem_cons.mp hd' with rfl | h
          · simp
          · simp [h]
        rw [hrest d hmem]
        rcases List.mem_cons.mp hd' with rfl | h
        · exact hc
        · rw [← hrun] at h
          exact List.mem_takeWhile_imp h
      have hs' : s = (pre ++ a ++ c :: run) ++ rest' := by
        rw [hs, hsplit, ht]
        simp
      have hlen : pre.length + a.length + 1 + run.length = (pre ++ a ++ c :: run).length := by
        simp
        omega
      have hslice : slice s pre.length (pre.length + a.length) = a := by
        unfold slice
        rw [hs, List.drop_left, hsplit, Nat.add_sub_cancel_left, List.take_left]
      have hlt : rest'.length < fuel := by
        have : rest.length = a.length + (1 + (run.length + rest'.length)) := by
          rw [hsplit, ht]
          simp
          omega
        omega
      have hend' : pre.length + a.length < s.length := by
        rw [hs, hsplit]
        simp
      have hih := ih (pre ++ a ++ c :: run) rest'
        (some (pre.length + a.length + 1 + run.length)) (pre.length + a.length) hs' hlt hend'
      rw [← hlen] at hih
      rw [splitPieces, if_pos (by omega), hslice, List.filter_cons]
      have hruns : countRunsFrom true rest = (if a = [] then 0 else 1) +
          countRunsFrom true rest' := by
        rw [hsplit, ht, countRunsFrom_nonspace true a _ hanon]
        have : c :: (run ++ rest') = (c :: run) ++ rest' := rfl
        rw [this, countRunsFrom_space _ (c :: run) rest' hrunsp]
        simp
      rw [hruns]
      by_cases hnil : a = []
      · subst hnil
        simp only [trimSpace, List.dropWhile_nil, List.reverse_nil, bne_self_eq_false,
          Bool.false_eq_true, if_false, if_true, Nat.zero_add]
        exact hih
      · have hne : trimSpace a ≠ [] := by
          intro h
          obtain ⟨d, t', rfl⟩ := List.exists_cons_of_ne_nil hnil
          have := (trimSpace_eq_nil_iff _).mp h d (by simp)
          rw [hanon d (by simp)] at this
          exact absurd this (by simp)
        have hb : (trimSpace a != []) = true := by simpa using hne
        rw [if_pos hb, if_neg hnil, List.length_cons, hih]
        omega

/-- On printable ASCII and the five ASCII blanks, the white space of
`unicode.IsSpace` is the class `\s`. -/
theorem isSpace_eq_of_isTextChar (c : Char) (h : isTextChar c = true) :
    isSpace c = isReSpace c := by
  unfold isTextChar at h
  simp only [Bool.or_eq_true, Bool.and_eq_true, decide_eq_true_eq, beq_iff_eq] at h
  rcases h with (((⟨h1, h2⟩ | rfl) | rfl) | rfl) | rfl
  · have hc : c = Char.ofNat c.toNat := (Char.ofNat_toNat c).symm
    generalize c.toNat = n at h1 h2 hc
    subst hc
    interval_cases n <;> decide
  all_goals decide

/-- The count of `countWords` on a text whose white space is all in `\s`. -/
theorem countTokens_eq_countRuns (t : Str) (hsp : ∀ c ∈ t, isSpace c = isReSpace c) :
    countTokens t = countRuns t := by
  unfold countTokens reSplit countRuns
  by_cases ht : t = []
  · subst ht
    rfl
  · rw [if_neg ht]
    unfold findAllStringIndex
    exact splitPieces_count t hsp (t.length + 2) [] t none 0 rfl (by omega)
      (List.length_pos.mpr ht)

/-- C7. `countWords` on a file with text `t` over printable ASCII, space, tab,
newline, carriage return and form feed returns, without error, the number of
maximal runs of characters of `t` that are no white space; the whole text is
counted, header lines included. -/
theorem countWords_runs (env : Env) (filename t : Str)
    (hread : env.readFile filename = .ok t) (htext : ∀ c ∈ t, isTextChar c = true) :
    countWords env filename = (countRuns t, none) := by
  unfold countWords
  rw [hread]
  simp only
  rw [countTokens_eq_countRuns t (fun c hc => isSpace_eq_of_isTextChar c (htext c hc))]

/-- Witness of C7: `Hello, world! This is a test.` has 6 words. -/
theorem countWords_runs_witness :
    exampleEnv.readFile "/e/words.txt".toList = .ok "Hello, world! This is a test.".toList ∧
    countRuns "Hello, world! This is a test.".toList = 6 ∧
    countWords exampleEnv "/e/words.txt".toList = (6, none) :=
  ⟨rfl, by decide,
    (countWords_runs exampleEnv "/e/words.txt".toList "Hello, world! This is a test.".toList
      rfl (by decide)).trans (by decide)⟩

/-- The tests of `countWords`, on the text of the file. -/
theorem countTokens_examples :
    countTokens "Hello world test".toList = 3 ∧
    countTokens "Hello\nworld\ntest".toList = 3 ∧
    countTokens "Hello    world     test".toList = 3 ∧
    countTokens [] = 0 ∧
    countTokens "   \n\t  \n  ".toList = 0 ∧
    countTokens "Hello, world! This is a test.".toList = 6 ∧
    countTokens validContent = 18 := by
  refine ⟨?_, ?_, ?_, ?_, ?_, ?_, ?_⟩ <;> decide

/-! ## C8: the word-count check of `main` -/

/-- The body of the loop of `main` on a file whose word count, if taken, is
obtained: the entries of the four checks are appended, in order. -/
theorem checkCandidate_eq (env : Env) (maxWords : Int) (config : ElectionConfig)
    (sections : List Str) (state : List ValidationError × List Str) (candidateFile : Str)
    (hread : 0 < maxWords → (countWords env candidateFile).2 = none) :
    checkCandidate env maxWords config sections state candidateFile =
      (state.1 ++ wordCountEntries env maxWords candidateFile ++
        otherEntries env config sections candidateFile, state.2) := by
  unfold checkCandidate wordCountEntries otherEntries
  have hs : (sections.length > 0) ↔ sections ≠ [] := List.length_pos
  by_cases hm : 0 < maxWords
  · have h2 := hread hm
    rcases hcw : countWords env candidateFile with ⟨n, e⟩
    rw [hcw] at h2
    simp only at h2
    subst h2
    have hm' : maxWords > 0 := hm
    by_cases hn : maxWords < (n : Int) <;> by_cases h : sections ≠ [] <;>
      cases validateFileNameAndID env candidateFile <;>
      cases validateRequiredFields env candidateFile config <;>
      cases validateRequiredSections env candidateFile sections <;>
      simp [hm, hm', hn, h, hs, errorEntry, gt_iff_lt]
  · have hm' : ¬ maxWords > 0 := hm
    by_cases h : sections ≠ [] <;>
      cases validateFileNameAndID env candidateFile <;>
      cases validateRequiredFields env candidateFile config <;>
      cases validateRequiredSections env candidateFile sections <;>
      simp [hm, hm', h, hs, errorEntry]

/-- C8. The word-count check in `main` adds an error for a file exactly when
the maximum is greater than 0 and the word count `n` of the file is greater
than the maximum: the errors after the file are the errors before it, then the
entry `has <n> words` in that case and nothing otherwise (so not for a count
equal to the maximum, and for no file when the maximum is 0), then the entries
of the other checks. -/
theorem checkCandidate_wordCount (env : Env) (maxWords : Int) (config : ElectionConfig)
    (sections : List Str) (state : List ValidationError × List Str) (candidateFile : Str)
    (n : Nat) (hcount : 0 < maxWords → countWords env candidateFile = (n, none)) :
    (checkCandidate env maxWords config sections state candidateFile).1 =
      state.1 ++
      (if 0 < maxWords ∧ maxWords < (n : Int) then
        [⟨candidateFile, "has ".toList ++ fmtD n ++ " words".toList⟩]
       else []) ++
      otherEntries env config sections candidateFile := by
  rw [checkCandidate_eq env maxWords config sections state candidateFile
    (fun h => by rw [hcount h])]
  unfold wordCountEntries
  by_cases hm : 0 < maxWords
  · rw [hcount hm]
  · simp [hm]

/-- Witness of C8: the valid bio of the tests has 18 words; with a maximum of
17 the word-count entry is the only one. -/
theorem checkCandidate_wordCount_witness :
    countWords exampleEnv "/e/candidate-testuser.md".toList = (18, none) ∧
    (checkCandidate exampleEnv 17 ⟨[]⟩ [] ([], []) "/e/candidate-testuser.md".toList).1 =
      [⟨"/e/candidate-testuser.md".toList, "has 18 words".toList⟩] :=
  ⟨by decide,
    (checkCandidate_wordCount exampleEnv 17 ⟨[]⟩ [] ([], []) "/e/candidate-testuser.md".toList
      18 (fun _ => by decide)).trans (by decide)⟩

/-- The word-count check on the valid bio of the tests (18 words): a maximum
of 18 passes, a maximum of 0 disables the check. -/
theorem checkCandidate_examples :
    (checkCandidate exampleEnv 18 ⟨[]⟩ [] ([], []) "/e/candidate-testuser.md".toList).1 = [] ∧
    (checkCandidate exampleEnv 0 ⟨[]⟩ [] ([], []) "/e/candidate-testuser.md".toList).1 = [] := by
  constructor <;> decide

/-! ## C9: `findCandidateFiles` -/

/-- The walk without errors: the regular files that pass the name test. -/
theorem walkLoop_eq (entries : List WalkEntry) (acc : List Str)
    (h : ∀ e ∈ entries, e.err = none) :
    walkLoop entries acc =
      (acc ++ (entries.filter (fun e => e.isRegular && isCandidateName e.name)).map
        WalkEntry.path, none) := by
  induction entries generalizing acc with
  | nil => simp [walkLoop]
  | cons e es ih =>
    have he := h e (by simp)
    have hes : ∀ x ∈ es, x.err = none := fun x hx => h x (by simp [hx])
    unfold walkLoop
    rw [he]
    simp only
    by_cases hr : e.isRegular = true
    · by_cases hn : isCandidateName e.name = true
      · simp [hr, hn, ih _ hes, List.filter_cons]
      · simp [hr, hn, ih _ hes, List.filter_cons]
    · simp [hr, ih _ hes, List.filter_cons]

/-- The name test of `findCandidateFiles`, as a prefix and a suffix. -/
theorem isCandidateName_iff (name : Str) :
    isCandidateName name = true ↔ "candidate-".toList <+: name ∧ ".md".toList <:+ name := by
  unfold isCandidateName hasPrefix hasSuffix
  rw [Bool.and_eq_true, List.isPrefixOf_iff_prefix, List.isSuffixOf_iff_suffix]

/-- C9, amended. `findCandidateFiles` selects the regular files whose base
name starts with `candidate-` and ends with `.md`: on a walk without errors it
returns the paths of exactly these, in walk order.  Every name that matches
`^candidate-([a-zA-Z0-9_-]+)\.md$` passes this test. -/
theorem findCandidateFiles_selects (env : Env) (electionPath : Str)
    (hwalk : ∀ e ∈ env.walk electionPath, e.err = none) :
    findCandidateFiles env electionPath =
      (((env.walk electionPath).filter
        (fun e => e.isRegular && isCandidateName e.name)).map WalkEntry.path, none) ∧
    (∀ name, isCandidateName name = true ↔
      "candidate-".toList <+: name ∧ ".md".toList <:+ name) ∧
    (∀ name, (findStringSubmatch candidateRegex name).length = 2 →
      isCandidateName name = true) := by
  refine ⟨?_, isCandidateName_iff, ?_⟩
  · unfold findCandidateFiles
    rw [walkLoop_eq _ _ hwalk]
    rfl
  · intro name h
    obtain ⟨u, -, -, rfl⟩ := candidateRegex_some name (by
      intro h0
      rw [h0] at h
      exact absurd h (by simp))
    rw [isCandidateName_iff]
    exact ⟨⟨u ++ ".md".toList, by simp⟩, ⟨"candidate-".toList ++ u, by simp⟩⟩

/-- Witness of C9, amended: the walk of the example directory. -/
theorem findCandidateFiles_selects_witness :
    findCandidateFiles exampleEnv "/e".toList =
      (["/e/candidate-noid.md".toList, "/e/candidate-noname.md".toList,
        "/e/candidate-sections.md".toList, "/e/candidate-testuser.md".toList,
        "/e/sub/candidate-testuser.md".toList], none) :=
  (findCandidateFiles_selects exampleEnv "/e".toList (by decide)).1.trans (by decide)

/-- Counterexample to C9 as stated: the names `candidate-a b.md` and
`candidate-.md` pass the test of `findCandidateFiles` and do not match the
pattern. -/
theorem isCandidateName_not_pattern :
    (isCandidateName "candidate-a b.md".toList = true ∧
      findStringSubmatch candidateRegex "candidate-a b.md".toList = []) ∧
    (isCandidateName "candidate-.md".toList = true ∧
      findStringSubmatch candidateRegex "candidate-.md".toList = []) := by
  refine ⟨⟨?_, ?_⟩, ⟨?_, ?_⟩⟩ <;> decide

/-- The names of `TestFindCandidateFiles`. -/
theorem isCandidateName_examples :
    isCandidateName "candidate-user1.md".toList = true ∧
    isCandidateName "candidate-user4.md".toList = true ∧
    isCandidateName "not-candidate.md".toList = false ∧
    isCandidateName "candidate-user3.txt".toList = false := by
  refine ⟨?_, ?_, ?_, ?_⟩ <;> decide

/-! ## C10: the errors that `main` collects -/

theorem countWords_readable (env : Env) (filename content : Str)
    (h : env.readFile filename = .ok content) : (countWords env filename).2 = none := by
  unfold countWords
  rw [h]

/-- The loop of `main` over readable files appends the entries of each file. -/
theorem foldl_checkCandidate (env : Env) (maxWords : Int) (config : ElectionConfig)
    (sections : List Str) (candidateFiles : List Str)
    (state : List ValidationError × List Str)
    (hread : ∀ f ∈ candidateFiles, ∃ content, env.readFile f = .ok content) :
    candidateFiles.foldl (checkCandidate env maxWords config sections) state =
      (state.1 ++ candidateFiles.flatMap (fileEntries env maxWords config sections),
        state.2) := by
  induction candidateFiles generalizing state with
  | nil => simp
  | cons f fs ih =>
    obtain ⟨content, hc⟩ := hread f (by simp)
    rw [List.foldl_cons, checkCandidate_eq env maxWords config sections state f
      (fun _ => countWords_readable env f content hc),
      ih _ (fun g hg => hread g (by simp [hg]))]
    simp [fileEntries, List.append_assoc]

/-- The exit status and the output of `main` once candidate files are found. -/
theorem main_found (env : Env) (flags : Flags) (electionPath : Str) (rest candidateFiles : List Str)
    (hargs : flags.args = electionPath :: rest)
    (hfind : findCandidateFiles env electionPath = (candidateFiles, none))
    (hne : candidateFiles ≠ []) :
    main env flags =
      if (collectErrors env flags.maxWords (loadConfigOrEmpty env electionPath).1
          (parseSections flags.requiredSections) candidateFiles).1.length > 0 then
        ⟨1, report (collectErrors env flags.maxWords (loadConfigOrEmpty env electionPath).1
          (parseSections flags.requiredSections) candidateFiles).1 flags.recommendedWords,
          (loadConfigOrEmpty env electionPath).2 ++
            (collectErrors env flags.maxWords (loadConfigOrEmpty env electionPath).1
              (parseSections flags.requiredSections) candidateFiles).2⟩
      else
        ⟨0, ["All ".toList ++ fmtD candidateFiles.length ++
          " candidate bio(s) validated successfully.\n".toList],
          (loadConfigOrEmpty env electionPath).2 ++
            (collectErrors env flags.maxWords (loadConfigOrEmpty env electionPath).1
              (parseSections flags.requiredSections) candidateFiles).2⟩ := by
  unfold main
  rw [hargs]
  simp only [hfind]
  rw [if_neg (by simpa using hne)]

/-- C10. The reporter collects every failure: on a run that finds a non-empty
list of readable candidate files, the slice `errors` built by `main` is, file
after file, the entries of the checks that fail on the file: the word count
when the maximum is positive, the file name and ID, the required fields, and
the required sections when the list of sections is not empty; it has no other
entry.  The run ends with status 1 exactly when the slice is not empty, and
with status 0 otherwise; on failure every entry is printed. -/
theorem main_collects (env : Env) (flags : Flags) (electionPath : Str)
    (rest candidateFiles : List Str)
    (hargs : flags.args = electionPath :: rest)
    (hfind : findCandidateFiles env electionPath = (candidateFiles, none))
    (hne : candidateFiles ≠ [])
    (hread : ∀ f ∈ candidateFiles, ∃ content, env.readFile f = .ok content) :
    (collectErrors env flags.maxWords (loadConfigOrEmpty env electionPath).1
        (parseSections flags.requiredSections) candidateFiles).1 =
      candidateFiles.flatMap (fun f =>
        wordCountEntries env flags.maxWords f ++
        errorEntry f (validateFileNameAndID env f) ++
        errorEntry f (validateRequiredFields env f (loadConfigOrEmpty env electionPath).1) ++
        (if parseSections flags.requiredSections ≠ [] then
          errorEntry f (validateRequiredSections env f (parseSections flags.requiredSections))
         else [])) ∧
    ((main env flags).exitCode = 1 ↔
      (collectErrors env flags.maxWords (loadConfigOrEmpty env electionPath).1
        (parseSections flags.requiredSections) candidateFiles).1 ≠ []) ∧
    ((main env flags).exitCode = 0 ↔
      (collectErrors env flags.maxWords (loadConfigOrEmpty env electionPath).1
        (parseSections flags.requiredSections) candidateFiles).1 = []) ∧
    ((collectErrors env flags.maxWords (loadConfigOrEmpty env electionPath).1
        (parseSections flags.requiredSections) candidateFiles).1 ≠ [] →
      (main env flags).stdout =
        report (collectErrors env flags.maxWords (loadConfigOrEmpty env electionPath).1
          (parseSections flags.requiredSections) candidateFiles).1 flags.recommendedWords) := by
  rw [main_found env flags electionPath rest candidateFiles hargs hfind hne]
  refine ⟨?_, ?_, ?_, ?_⟩
  · unfold collectErrors
    rw [foldl_checkCandidate _ _ _ _ _ _ hread]
    simp only [List.nil_append]
    congr 1
    funext f
    simp [fileEntries, otherEntries, List.append_assoc]
  all_goals
    cases hE : (collectErrors env flags.maxWords (loadConfigOrEmpty env electionPath).1
        (parseSections flags.requiredSections) candidateFiles).1 with
    | nil => simp
    | cons e es => simp

/-- Witness of C10: the run over the example directory, with five readable
candidate files, ends with status 1. -/
theorem main_collects_witness :
    exampleFlags.args = ["/e".toList] ∧
    (findCandidateFiles exampleEnv "/e".toList).2 = none ∧
    (findCandidateFiles exampleEnv "/e".toList).1.length = 5 ∧
    (main exampleEnv exampleFlags).exitCode = 1 :=
  ⟨rfl, by decide, by decide,
    (main_collects exampleEnv exampleFlags "/e".toList []
      ["/e/candidate-noid.md".toList, "/e/candidate-noname.md".toList,
        "/e/candidate-sections.md".toList, "/e/candidate-testuser.md".toList,
        "/e/sub/candidate-testuser.md".toList]
      rfl (by decide) (by decide)
      (by
        intro f hf
        simp only [List.mem_cons, List.mem_singleton, List.not_mem_nil, or_false] at hf
        rcases hf with rfl | rfl | rfl | rfl | rfl
        · exact ⟨noIdContent, rfl⟩
        · exact ⟨noNameContent, rfl⟩
        · exact ⟨sectionsContent, rfl⟩
        · exact ⟨validContent, rfl⟩
        · exact ⟨mismatchContent, rfl⟩)).2.1.mpr (by decide)⟩

/-- The errors of the run over the example directory: several entries for one
file, in the order of the checks. -/
theorem collectErrors_example :
    (collectErrors exampleEnv 17 ⟨[]⟩ ["## About Me".toList, "## Platform".toList]
      ["/e/candidate-noid.md".toList, "/e/candidate-testuser.md".toList]).1 =
      [⟨"/e/candidate-noid.md".toList, "missing 'ID' field in header".toList⟩,
       ⟨"/e/candidate-noid.md".toList, "missing required field: ID".toList⟩,
       ⟨"/e/candidate-noid.md".toList, "missing required section: ## About Me".toList⟩,
       ⟨"/e/candidate-testuser.md".toList, "has 18 words".toList⟩,
       ⟨"/e/candidate-testuser.md".toList,
         "missing required section: ## About Me".toList⟩] := by
  decide

/-! ## C11: a read error in the word-count check -/

/-- The slice `errors` after a file depends on the slice before it only. -/
theorem checkCandidate_fst (env : Env) (maxWords : Int) (config : ElectionConfig)
    (sections : List Str) (st st' : List ValidationError × List Str) (candidateFile : Str)
    (h : st.1 = st'.1) :
    (checkCandidate env maxWords config sections st candidateFile).1 =
      (checkCandidate env maxWords config sections st' candidateFile).1 := by
  obtain ⟨e, l⟩ := st
  obtain ⟨e', l'⟩ := st'
  simp only at h
  subst h
  unfold checkCandidate
  by_cases hm : maxWords > 0
  · rcases hcw : countWords env candidateFile with ⟨n, err⟩
    cases err with
    | some msg => simp [hm]
    | none =>
      by_cases hn : (n : Int) > maxWords
      · simp [hm, hn]
      · simp [hm, hn]
  · simp [hm]

theorem foldl_checkCandidate_fst (env : Env) (maxWords : Int) (config : ElectionConfig)
    (sections : List Str) (candidateFiles : List Str)
    (st st' : List ValidationError × List Str) (h : st.1 = st'.1) :
    (candidateFiles.foldl (checkCandidate env maxWords config sections) st).1 =
      (candidateFiles.foldl (checkCandidate env maxWords config sections) st').1 := by
  induction candidateFiles generalizing st st' with
  | nil => exact h
  | cons f fs ih =>
    rw [List.foldl_cons, List.foldl_cons]
    exact ih _ _ (checkCandidate_fst env maxWords config sections st st' f h)

/-- The body of the loop on a file that the word-count check cannot read. -/
theorem checkCandidate_unreadable (env : Env) (maxWords : Int) (config : ElectionConfig)
    (sections : List Str) (state : List ValidationError × List Str) (candidateFile err : Str)
    (hm : 0 < maxWords) (hfail : env.readFile candidateFile = .error err) :
    checkCandidate env maxWords config sections state candidateFile =
      (state.1, state.2 ++ ["Error counting words in ".toList ++ candidateFile ++
        ": ".toList ++ err ++ "\n".toList]) := by
  have hm' : maxWords > 0 := hm
  unfold checkCandidate countWords
  rw [hfail]
  simp [hm']

/-- What the loop of `main` does on a read error in the word-count check: for
a candidate file whose read fails while the maximum of words is positive, it
writes the error to standard error and goes on with the next file; none of the
four checks adds an entry for the file, so the slice `errors` of the run is the
one of the run without the file. -/
theorem checkCandidate_read_error (env : Env) (maxWords : Int) (config : ElectionConfig)
    (sections : List Str) (state : List ValidationError × List Str) (candidateFile err : Str)
    (before after : List Str)
    (hm : 0 < maxWords) (hfail : env.readFile candidateFile = .error err) :
    checkCandidate env maxWords config sections state candidateFile =
      (state.1, state.2 ++ ["Error counting words in ".toList ++ candidateFile ++
        ": ".toList ++ err ++ "\n".toList]) ∧
    (collectErrors env maxWords config sections (before ++ candidateFile :: after)).1 =
      (collectErrors env maxWords config sections (before ++ after)).1 := by
  refine ⟨checkCandidate_unreadable env maxWords config sections state candidateFile err hm hfail,
    ?_⟩
  unfold collectErrors
  rw [List.foldl_append, List.foldl_append, List.foldl_cons,
    checkCandidate_unreadable env maxWords config sections _ candidateFile err hm hfail]
  exact foldl_checkCandidate_fst env maxWords config sections after _ _ rfl

/-- An unreadable file after the valid bio of the tests leaves the slice
`errors` as it is without the file. -/
theorem checkCandidate_read_error_witness :
    (countWords (walkEnv ghostWalk) "/g/candidate-ghost.md".toList).2 ≠ none ∧
    (collectErrors (walkEnv ghostWalk) 17 ⟨[]⟩ []
      ["/e/candidate-testuser.md".toList, "/g/candidate-ghost.md".toList]).1 =
    (collectErrors (walkEnv ghostWalk) 17 ⟨[]⟩ [] ["/e/candidate-testuser.md".toList]).1 :=
  ⟨by decide,
    (checkCandidate_read_error (walkEnv ghostWalk) 17 ⟨[]⟩ [] ([], [])
      "/g/candidate-ghost.md".toList
      ("open ".toList ++ "/g/candidate-ghost.md".toList ++ ": no such file or directory".toList)
      ["/e/candidate-testuser.md".toList] [] (by decide) rfl).2⟩

/-- C11 fails on the code: on a run that finds one candidate file, which
cannot be read, with a maximum of 17 words the word-count check writes its
error and the loop goes on to the next file: the checks of the file name and of
the required fields, which fail on this file, are not run, no error is
recorded, and `main` reports success with status 0.  With the word count
disabled the same run records their two errors and ends with status 1. -/
theorem main_skips_unreadable :
    findCandidateFiles (walkEnv ghostWalk) "/g".toList =
      (["/g/candidate-ghost.md".toList], none) ∧
    validateFileNameAndID (walkEnv ghostWalk) "/g/candidate-ghost.md".toList =
      some ("error reading file: open /g/candidate-ghost.md: " ++
        "no such file or directory").toList ∧
    validateRequiredFields (walkEnv ghostWalk) "/g/candidate-ghost.md".toList ⟨[]⟩ =
      some ("error reading file: open /g/candidate-ghost.md: " ++
        "no such file or directory").toList ∧
    (collectErrors (walkEnv ghostWalk) 17 ⟨[]⟩ [] ["/g/candidate-ghost.md".toList]).1 = [] ∧
    (main (walkEnv ghostWalk) (plainFlags 17 "/g".toList)).exitCode = 0 ∧
    (main (walkEnv ghostWalk) (plainFlags 17 "/g".toList)).stdout =
      ["All 1 candidate bio(s) validated successfully.\n".toList] ∧
    (collectErrors (walkEnv ghostWalk) 0 ⟨[]⟩ [] ["/g/candidate-ghost.md".toList]).1 =
      [⟨"/g/candidate-ghost.md".toList, ("error reading file: open /g/candidate-ghost.md: " ++
          "no such file or directory").toList⟩,
       ⟨"/g/candidate-ghost.md".toList, ("error reading file: open /g/candidate-ghost.md: " ++
          "no such file or directory").toList⟩] ∧
    (main (walkEnv ghostWalk) (plainFlags 0 "/g".toList)).exitCode = 1 := by
  refine ⟨?_, ?_, ?_, ?_, ?_, ?_, ?_, ?_⟩ <;> decide

/-! ## C12: the edges of the extracted header -/

/-- A greedy repetition takes the longest run after which the rest matches:
where it stops, one more character of the class leads to no match. -/
theorem matchRe_star_greedy_max (p : Char → Bool) (off : Nat) (rest : Str) (cap : Option Str)
    (k : MState → Option MState) (v : MState)
    (h : matchRe (.star true (.cls p)) ⟨off, rest, cap⟩ k = some v) :
    ∃ w t, rest = w ++ t ∧ (∀ c ∈ w, p c = true) ∧ k ⟨off + w.length, t, cap⟩ = some v ∧
      ∀ c t', t = c :: t' → p c = true →
        matchRe (.star true (.cls p)) ⟨off + w.length + 1, t', cap⟩ k = none := by
  induction rest generalizing off with
  | nil =>
    rw [matchRe_star_nil] at h
    exact ⟨[], [], rfl, by simp, h, by simp⟩
  | cons c r ih =>
    rw [matchRe_star_greedy_cons] at h
    by_cases hp : p c = true
    · rw [if_pos hp] at h
      cases h2 : matchRe (.star true (.cls p)) ⟨off + 1, r, cap⟩ k with
      | some r' =>
        rw [h2] at h
        obtain ⟨w, t, hr, hw, hk, hmax⟩ := ih _ (h2.trans h)
        refine ⟨c :: w, t, by rw [hr]; rfl, ?_, ?_, ?_⟩
        · intro d hd
          rcases List.mem_cons.mp hd with rfl | hd
          · exact hp
          · exact hw d hd
        · rw [← hk]
          simp only [List.length_cons]
          congr 2
          omega
        · intro d t' ht hd
          rw [← hmax d t' ht hd]
          simp only [List.length_cons]
          congr 2
          omega
      | none =>
        rw [h2] at h
        refine ⟨[], c :: r, rfl, by simp, h, ?_⟩
        intro d t' ht _
        obtain ⟨-, rfl⟩ := List.cons.inj ht
        exact h2
    · rw [if_neg hp] at h
      refine ⟨[], c :: r, rfl, by simp, h, ?_⟩
      intro d t' ht hd
      obtain ⟨rfl, -⟩ := List.cons.inj ht
      exact absurd hd hp

/-- A lazy repetition followed by something that succeeds after the run `w`
succeeds (maybe earlier). -/
theorem matchRe_star_lazy_isSome (p : Char → Bool) (w : Str) (off : Nat) (t : Str)
    (cap : Option Str) (k : MState → Option MState)
    (hw : ∀ c ∈ w, p c = true) (h : (k ⟨off + w.length, t, cap⟩).isSome = true) :
    (matchRe (.star false (.cls p)) ⟨off, w ++ t, cap⟩ k).isSome = true := by
  induction w generalizing off with
  | nil =>
    cases hk : k ⟨off, t, cap⟩ with
    | none =>
      simp only [List.length_nil, Nat.add_zero] at h
      rw [hk] at h
      exact absurd h (by simp)
    | some v => rw [List.nil_append, matchRe_star_lazy_here p off t cap k v hk]; rfl
  | cons c cs ih =>
    show (matchRe (.star false (.cls p)) ⟨off, c :: (cs ++ t), cap⟩ k).isSome = true
    rw [matchRe_star_lazy_cons]
    cases k ⟨off, c :: (cs ++ t), cap⟩ with
    | some r => rfl
    | none =>
      simp only
      rw [if_pos (hw c (by simp))]
      apply ih (off + 1) (fun d hd => hw d (by simp [hd]))
      rw [← h]
      simp only [List.length_cons]
      congr 3
      omega

/-- Whether the closing part matches depends on the text only. -/
theorem dashClose_isSome_of (off off' : Nat) (rest : Str) (cap cap' : Option Str) (v : MState)
    (h : matchRe dashClose ⟨off, rest, cap⟩ some = some v) :
    (matchRe dashClose ⟨off', rest, cap'⟩ some).isSome = true := by
  obtain ⟨w2, post, hrest, hw2, -⟩ := dashClose_some _ _ _ _ h
  obtain ⟨v', hv', -⟩ := dashClose_isSome off' w2 post cap' hw2
  rw [hrest, List.append_assoc, hv']
  rfl

/-- The text captured by the header expression does not start with a newline:
the white space before it takes the newlines. -/
theorem dashBody_cap_head (content : Str) (v : MState) (hdr : Str)
    (h : matchRe dashBody ⟨0, content, none⟩ some = some v) (hcap : v.cap = some hdr) :
    hdr.head? ≠ some '\n' := by
  unfold dashBody at h
  rw [matchRe_seq] at h
  obtain ⟨t1, -, h1⟩ := matchRe_rep_some _ _ _ _ _ _ _ h
  rw [matchRe_seq] at h1
  obtain ⟨w1, t2, -, -, h2, hmax⟩ := matchRe_star_greedy_max _ _ _ _ _ _ h1
  rw [matchRe_seq] at h2
  obtain ⟨t3, ht3, h3⟩ := matchRe_chr_some _ _ _ _ _ _ h2
  rw [matchRe_seq, matchRe_group] at h3
  obtain ⟨hdr', t4, ht4, -, h4⟩ := matchRe_star_some _ _ _ _ _ _ _ h3
  simp only at h4
  obtain ⟨w2, post, -, -, hcap'⟩ := dashClose_some _ _ _ _ h4
  have hh : hdr' = hdr := by
    rw [hcap, ht4] at hcap'
    simpa using hcap'.symm
  subst hh
  intro hhead
  obtain ⟨h', rfl⟩ : ∃ h', hdr' = '\n' :: h' := by
    cases hdr' with
    | nil => exact absurd hhead (by simp)
    | cons c h' => exact ⟨h', by simp at hhead; rw [hhead]⟩
  have hnone := hmax '\n' t3 ht3 (by decide)
  rw [ht4, List.cons_append, matchRe_star_greedy_cons, if_pos (by decide)] at hnone
  have hk : matchRe (.seq (Re.chr '\n') (.seq (.group (.star false (.cls isAny))) dashClose))
      ⟨0 + 61 + w1.length + 1, '\n' :: (h' ++ t4), none⟩ some = none := by
    cases hin : matchRe (.star true (.cls isReSpace))
        ⟨0 + 61 + w1.length + 1 + 1, h' ++ t4, none⟩
        (fun st' => matchRe (.seq (Re.chr '\n')
          (.seq (.group (.star false (.cls isAny))) dashClose)) st' some) with
    | some r => rw [hin] at hnone; exact absurd hnone (by simp)
    | none => rw [hin] at hnone; exact hnone
  rw [matchRe_seq, matchRe_chr_cons, if_pos rfl, matchRe_seq, matchRe_group] at hk
  have hsome := matchRe_star_lazy_isSome isAny h' (0 + 61 + w1.length + 1 + 1) t4 none
    (fun st' => matchRe dashClose
      { st' with cap := some ((h' ++ t4).take ((h' ++ t4).length - st'.rest.length)) } some)
    (fun _ _ => rfl) (dashClose_isSome_of _ _ _ _ _ _ h4)
  rw [hk] at hsome
  exact absurd hsome (by simp)

/-- A lazy repetition takes the shortest run after which the rest matches. -/
theorem matchRe_star_lazy_min (p : Char → Bool) (off : Nat) (rest : Str) (cap : Option Str)
    (k : MState → Option MState) (v : MState)
    (h : matchRe (.star false (.cls p)) ⟨off, rest, cap⟩ k = some v) :
    ∃ w t, rest = w ++ t ∧ (∀ c ∈ w, p c = true) ∧ k ⟨off + w.length, t, cap⟩ = some v ∧
      ∀ w' t', rest = w' ++ t' → w'.length < w.length →
        k ⟨off + w'.length, t', cap⟩ = none := by
  induction rest generalizing off with
  | nil =>
    rw [matchRe_star_nil] at h
    exact ⟨[], [], rfl, by simp, h, fun w' t' _ hlt => absurd hlt (by simp)⟩
  | cons c r ih =>
    rw [matchRe_star_lazy_cons] at h
    cases hk : k ⟨off, c :: r, cap⟩ with
    | some r' =>
      rw [hk] at h
      exact ⟨[], c :: r, rfl, by simp, hk.trans h, fun w' t' _ hlt => absurd hlt (by simp)⟩
    | none =>
      rw [hk] at h
      simp only at h
      by_cases hp : p c = true
      · rw [if_pos hp] at h
        obtain ⟨w, t, hr, hw, hkw, hmin⟩ := ih _ h
        refine ⟨c :: w, t, by rw [hr]; rfl, ?_, ?_, ?_⟩
        · intro d hd
          rcases List.mem_cons.mp hd with rfl | hd
          · exact hp
          · exact hw d hd
        · rw [← hkw]
          simp only [List.length_cons]
          congr 2
          omega
        · intro w' t' hsplit hlt
          cases w' with
          | nil =>
            rw [List.nil_append] at hsplit
            rw [← hsplit]
            exact hk
          | cons c' w'' =>
            rw [List.cons_append] at hsplit
            obtain ⟨-, hr'⟩ := List.cons.inj hsplit
            have := hmin w'' t' hr' (by simpa using hlt)
            rw [← this]
            simp only [List.length_cons]
            congr 2
            omega
      · rw [if_neg hp] at h
        exact absurd h (by simp)

/-- After the white space of the opening line, the expression matches a
newline, any text and a closing line. -/
theorem dashTail_isSome (off : Nat) (hdr' w2' post' : Str) (cap : Option Str)
    (hw2' : ∀ c ∈ w2', isReSpace c = true) :
    (matchRe (.seq (Re.chr '\n') (.seq (.group (.star false (.cls isAny))) dashClose))
      ⟨off, '\n' :: (hdr' ++ ("\n---".toList ++ (w2' ++ '\n' :: post'))), cap⟩ some).isSome
      = true := by
  rw [matchRe_seq, matchRe_chr_cons, if_pos rfl, matchRe_seq, matchRe_group]
  apply matchRe_star_lazy_isSome isAny hdr' _ _ _ _ (fun _ _ => rfl)
  obtain ⟨v, hv, -⟩ := dashClose_isSome 0 w2' post' none hw2'
  exact dashClose_isSome_of _ _ _ _ _ _ hv

/-- The white space of the opening line can be any white space that a
newline, any text and a closing line follow. -/
theorem dashWs_isSome (off : Nat) (z hdr' w2' post' : Str) (cap : Option Str)
    (hz : ∀ c ∈ z, isReSpace c = true) (hw2' : ∀ c ∈ w2', isReSpace c = true) :
    (matchRe (.star true (.cls isReSpace))
      ⟨off, z ++ '\n' :: (hdr' ++ ("\n---".toList ++ (w2' ++ '\n' :: post'))), cap⟩
      (fun st' => matchRe (.seq (Re.chr '\n')
        (.seq (.group (.star false (.cls isAny))) dashClose)) st' some)).isSome = true := by
  apply matchRe_star_greedy_isSome _ z _ _ _ _ hz
  rw [matchRe_star_greedy_cons, if_pos (by decide)]
  cases matchRe (.star true (.cls isReSpace))
      ⟨off + z.length + 1, hdr' ++ ("\n---".toList ++ (w2' ++ '\n' :: post')), cap⟩
      (fun st' => matchRe (.seq (Re.chr '\n')
        (.seq (.group (.star false (.cls isAny))) dashClose)) st' some) with
  | some r => rfl
  | none => exact dashTail_isSome _ hdr' w2' post' cap hw2'

theorem headerShape_iff (content w1 hdr w2 post : Str) :
    HeaderShape content w1 hdr w2 post ↔
      content = List.replicate 61 '-' ++
        (w1 ++ '\n' :: (hdr ++ ("\n---".toList ++ (w2 ++ '\n' :: post)))) ∧
      (∀ c ∈ w1, isReSpace c = true) ∧ (∀ c ∈ w2, isReSpace c = true) := by
  unfold HeaderShape
  have e : dashes61 ++ w1 ++ "\n".toList ++ hdr ++ "\n---".toList ++ w2 ++ "\n".toList ++ post =
      List.replicate 61 '-' ++
        (w1 ++ '\n' :: (hdr ++ ("\n---".toList ++ (w2 ++ '\n' :: post)))) := by
    show dashes61 ++ w1 ++ ['\n'] ++ hdr ++ ['\n', '-', '-', '-'] ++ w2 ++ ['\n'] ++ post =
      List.replicate 61 '-' ++ (w1 ++ '\n' :: (hdr ++ (['\n', '-', '-', '-'] ++ (w2 ++ '\n' :: post))))
    simp [dashes61]
  rw [e]

theorem option_none_isSome {α : Type} (o : Option α) (h1 : o = none)
    (h2 : o.isSome = true) : False := by
  rw [h1] at h2
  exact absurd h2 (by simp)

/-- The match of the header expression is the split of the text with the
longest white space after the dashes and, for it, the shortest captured text:
the text that the expression captures is the header block. -/
theorem dashBody_optimal (content : Str) (v : MState)
    (h : matchRe dashBody ⟨0, content, none⟩ some = some v) :
    ∃ hdr, v.cap = some hdr ∧ IsHeaderOf content hdr := by
  unfold dashBody at h
  rw [matchRe_seq] at h
  obtain ⟨t1, ht1, h1⟩ := matchRe_rep_some _ _ _ _ _ _ _ h
  rw [matchRe_seq] at h1
  obtain ⟨w1, t2, ht2, hw1, h2, hmax⟩ := matchRe_star_greedy_max _ _ _ _ _ _ h1
  rw [matchRe_seq] at h2
  obtain ⟨t3, ht3, h3⟩ := matchRe_chr_some _ _ _ _ _ _ h2
  rw [matchRe_seq, matchRe_group] at h3
  obtain ⟨hdr, t4, ht4, -, h4, hmin⟩ := matchRe_star_lazy_min _ _ _ _ _ _ h3
  simp only at h4
  obtain ⟨w2, post, ht5, hw2, hcap⟩ := dashClose_some _ _ _ _ h4
  refine ⟨hdr, ?_, w1, w2, post, ?_, ?_⟩
  · rw [hcap, ht4]
    simp
  · rw [headerShape_iff]
    refine ⟨?_, hw1, hw2⟩
    rw [ht1, ht2, ht3, ht4, ht5, List.append_assoc]
  · intro w1' hdr' w2' post' hs'
    rw [headerShape_iff] at hs'
    obtain ⟨hc', hw1', hw2'⟩ := hs'
    rw [ht1] at hc'
    have hc2 := List.append_cancel_left hc'
    rw [ht2, ht3] at hc2
    rcases Nat.lt_trichotomy w1'.length w1.length with hlt | heq | hgt
    · exact Or.inl hlt
    · right
      refine ⟨heq, ?_⟩
      obtain ⟨-, htail⟩ := List.append_inj hc2 heq.symm
      have ht3' : t3 = hdr' ++ ("\n---".toList ++ (w2' ++ '\n' :: post')) :=
        (List.cons.inj htail).2
      by_contra hnot
      have hnone := hmin hdr' _ ht3' (by omega)
      obtain ⟨v', hv', -⟩ := dashClose_isSome 0 w2' post' none hw2'
      exact option_none_isSome _ hnone (dashClose_isSome_of _ _ _ _ _ _ hv')
    · exfalso
      rcases List.append_eq_append_iff.mp hc2 with ⟨a, ha, hb⟩ | ⟨a, ha, hb⟩
      · cases a with
        | nil =>
          rw [List.append_nil] at ha
          rw [ha] at hgt
          exact absurd hgt (by omega)
        | cons c z =>
          rw [List.cons_append] at hb
          obtain ⟨hc, ht3'⟩ := List.cons.inj hb
          have hz : ∀ x ∈ z, isReSpace x = true :=
            fun x hx => hw1' x (by rw [ha]; simp [hx])
          have hnone := hmax '\n' t3 ht3 (by decide)
          rw [ht3'] at hnone
          exact option_none_isSome _ hnone (dashWs_isSome _ z hdr' w2' post' none hz hw2')
      · have := congrArg List.length ha
        rw [List.length_append] at this
        omega

/-- A text has at most one header block. -/
theorem isHeaderOf_unique (content hdr hdr2 : Str) (h : IsHeaderOf content hdr)
    (h2 : IsHeaderOf content hdr2) : hdr = hdr2 := by
  obtain ⟨w1, w2, post, hs, hopt⟩ := h
  obtain ⟨w1b, w2b, postb, hsb, hoptb⟩ := h2
  have ho1 := hopt w1b hdr2 w2b postb hsb
  have ho2 := hoptb w1 hdr w2 post hs
  have hlen1 : w1.length = w1b.length := by omega
  have hlen2 : hdr.length = hdr2.length := by omega
  rw [headerShape_iff] at hs hsb
  have heq := hs.1.symm.trans hsb.1
  have heq2 := List.append_cancel_left heq
  obtain ⟨-, htail⟩ := List.append_inj heq2 hlen1
  exact (List.append_inj (List.cons.inj htail).2 hlen2).1

/-- C12, amended. `extractYAMLHeader` returns the header block as it stands
in the text, not trimmed: on every text on which the extraction succeeds, the
text is 61 dashes, white space, a newline, the returned string, a newline,
`---`, white space, a newline and a remainder, and among all the ways to split
the text in this form the white space after the dashes is the longest and, for
it, the returned string the shortest.  The returned string is the only one with
this property, and it does not start with a newline. -/
theorem extractYAMLHeader_untrimmed (content : Str)
    (h : (extractYAMLHeader content).2 = none) :
    IsHeaderOf content (extractYAMLHeader content).1 ∧
    (∀ hdr, IsHeaderOf content hdr → hdr = (extractYAMLHeader content).1) ∧
    (extractYAMLHeader content).1.head? ≠ some '\n' := by
  rw [extractYAMLHeader_eq] at h ⊢
  cases hm : matchRe dashBody ⟨0, content, none⟩ some with
  | none => rw [hm] at h; exact absurd h (by simp)
  | some v =>
    obtain ⟨hdr, hcap, hhdr⟩ := dashBody_optimal content v hm
    simp only [hcap, Option.getD_some]
    exact ⟨hhdr, fun hdr2 h2 => isHeaderOf_unique content hdr2 hdr h2 hhdr,
      dashBody_cap_head content v hdr hm hcap⟩

/-- Witness of C12, amended: the test with white space after the delimiters. -/
theorem extractYAMLHeader_untrimmed_witness :
    (extractYAMLHeader (dashes61 ++
      "   \nname: Test User\nID: testuser\n---  \n## Bio content\n".toList)).2 = none ∧
    IsHeaderOf (dashes61 ++
      "   \nname: Test User\nID: testuser\n---  \n## Bio content\n".toList)
      (extractYAMLHeader (dashes61 ++
        "   \nname: Test User\nID: testuser\n---  \n## Bio content\n".toList)).1 ∧
    (extractYAMLHeader (dashes61 ++
      "   \nname: Test User\nID: testuser\n---  \n## Bio content\n".toList)).1.head? ≠
      some '\n' :=
  ⟨by decide,
    (extractYAMLHeader_untrimmed (dashes61 ++
      "   \nname: Test User\nID: testuser\n---  \n## Bio content\n".toList) (by decide)).1,
    (extractYAMLHeader_untrimmed (dashes61 ++
      "   \nname: Test User\nID: testuser\n---  \n## Bio content\n".toList) (by decide)).2.2⟩

/-- The edges of the header in three texts: a first line of one space is left
out with its space, a header of two spaces before the closing line is returned
as it is, and the capture ends at the first closing line. -/
theorem extractYAMLHeader_edge_examples :
    extractYAMLHeader (dashes61 ++ "\n \nname: x\n---\n".toList) = ("name: x".toList, none) ∧
    extractYAMLHeader (dashes61 ++ "\n  \n---\n".toList) = ("  ".toList, none) ∧
    extractYAMLHeader (dashes61 ++ "\nname: x\n---\nbody\n---\n".toList) =
      ("name: x".toList, none) := by
  refine ⟨?_, ?_, ?_⟩ <;> decide

/-- Counterexample to C12 as stated: the header `  name: x ` followed by an
empty line is returned with the two spaces at its start and the newline at its
end. -/
theorem extractYAMLHeader_keeps_space :
    extractYAMLHeader (dashes61 ++ "\n  name: x \n\n---\n".toList) =
      ("  name: x \n".toList, none) ∧
    isSpace ' ' = true ∧ isSpace '\n' = true := by
  refine ⟨?_, ?_, ?_⟩ <;> decide

/-! ## C13: the place of the opening line -/

theorem isOpenLine_iff (l : Str) :
    isOpenLine l = true ↔ ∃ ws, l = dashes61 ++ ws ∧ ∀ c ∈ ws, isReSpace c = true := by
  unfold isOpenLine
  rw [Bool.and_eq_true, List.isPrefixOf_iff_prefix, List.all_eq_true]
  constructor
  · rintro ⟨⟨ws, rfl⟩, hall⟩
    refine ⟨ws, rfl, ?_⟩
    rw [List.drop_left' (by simp [dashes61])] at hall
    exact hall
  · rintro ⟨ws, rfl, hall⟩
    refine ⟨List.prefix_append _ _, ?_⟩
    rw [List.drop_left' (by simp [dashes61])]
    exact hall

/-- A text on which the extraction succeeds has, as its first line, 61 dashes
followed only by white space. -/
theorem extractYAMLHeader_firstLine (content : Str)
    (h : (extractYAMLHeader content).2 = none) :
    isOpenLine (content.takeWhile (fun c => c != '\n')) = true := by
  obtain ⟨w1, w2, post, hc, hw1, -⟩ := extractYAMLHeader_some content h
  generalize (extractYAMLHeader content).1 = hdr at hc
  rw [hc, List.append_assoc, List.takeWhile_append_of_pos, takeWhile_ne_append]
  · exact (isOpenLine_iff _).mpr ⟨_, rfl, takeWhile_subset _ w1 hw1⟩
  · intro a ha
    rw [dashes61, List.mem_replicate] at ha
    rw [ha.2]
    decide

/-- C13, amended. `extractYAMLHeader` accepts the line of 61 dashes at the
very beginning of the document only: for a body `B` as in the basic case, the
text of 61 dashes, a newline, `B` and the closing line gives `B`, and the same
text after a non-empty prefix `P` of complete lines fails, unless the first
line of `P` is itself 61 dashes followed only by white space. -/
theorem extractYAMLHeader_anchored (P B : Str)
    (hP : ∃ P0, P = P0 ++ ['\n'])
    (hfirst : isOpenLine (P.takeWhile (fun c => c != '\n')) = false)
    (hB : ∃ b, B.head? = some b ∧ isReSpace b = false)
    (hlines : ∀ l ∈ textLines B, isCloseLine l = false) :
    extractYAMLHeader (P ++ List.replicate 61 '-' ++ "\n".toList ++ B ++ "\n---\n".toList) =
      ([], some errNoHeader) ∧
    extractYAMLHeader (List.replicate 61 '-' ++ "\n".toList ++ B ++ "\n---\n".toList) =
      (B, none) := by
  constructor
  · apply extractYAMLHeader_error
    intro h
    have hline := extractYAMLHeader_firstLine _ h
    obtain ⟨P0, rfl⟩ := hP
    have h1 : (P0 ++ ['\n'] ++ List.replicate 61 '-' ++ "\n".toList ++ B ++
        "\n---\n".toList).takeWhile (fun c => c != '\n') =
        (P0 ++ ['\n']).takeWhile (fun c => c != '\n') := by
      have e1 : P0 ++ ['\n'] ++ List.replicate 61 '-' ++ "\n".toList ++ B ++ "\n---\n".toList =
          P0 ++ '\n' :: (List.replicate 61 '-' ++ "\n".toList ++ B ++ "\n---\n".toList) := by
        simp
      have e2 : P0 ++ ['\n'] = P0 ++ '\n' :: [] := rfl
      rw [e1, e2, takeWhile_ne_append, takeWhile_ne_append]
    rw [h1, hfirst] at hline
    exact absurd hline (by simp)
  · obtain ⟨b, hb, hbs⟩ := hB
    obtain ⟨B', rfl⟩ : ∃ B', B = b :: B' := by
      cases B with
      | nil => exact absurd hb (by simp)
      | cons c B' => exact ⟨B', by simp at hb; rw [hb]⟩
    have := extractYAMLHeader_body [] (b :: B') [] [] b B' rfl hbs (by simp) (by simp)
      (fun l hl ws hws hall => by
        have := hlines l hl
        rw [(isCloseLine_iff l).mpr ⟨ws, hws, hall⟩] at this
        exact absurd this (by simp))
    rw [← this]
    congr 1

/-- Witness of C13, amended: the header `name: x` after the line `# Bio`. -/
theorem extractYAMLHeader_anchored_witness :
    extractYAMLHeader ("# Bio\n".toList ++ List.replicate 61 '-' ++ "\n".toList ++
      "name: x".toList ++ "\n---\n".toList) = ([], some errNoHeader) ∧
    extractYAMLHeader (List.replicate 61 '-' ++ "\n".toList ++ "name: x".toList ++
      "\n---\n".toList) = ("name: x".toList, none) :=
  extractYAMLHeader_anchored "# Bio\n".toList "name: x".toList ⟨"# Bio".toList, rfl⟩
    (by decide) ⟨'n', rfl, by decide⟩ (by decide)

/-- Counterexample to C13 as stated: after the prefix `# Bio`, a complete line
that does not consist of dashes, the extraction fails. -/
theorem extractYAMLHeader_prefix_fails :
    extractYAMLHeader ("# Bio\n".toList ++ List.replicate 61 '-' ++ "\n".toList ++
      "name: x".toList ++ "\n---\n".toList) = ([], some errNoHeader) := by
  decide

/-! ## C14, C15: white space in `countWords` -/

theorem isSpace_of_isReSpace (c : Char) (h : isReSpace c = true) : isSpace c = true := by
  unfold isReSpace at h
  simp only [Bool.or_eq_true, beq_iff_eq] at h
  rcases h with (((rfl | rfl) | rfl) | rfl) | rfl <;> decide

theorem isReSpace_of_not_isSpace (c : Char) (h : isSpace c = false) : isReSpace c = false := by
  cases hc : isReSpace c with
  | false => rfl
  | true =>
    rw [isSpace_of_isReSpace c hc] at h
    exact absurd h (by simp)

/-- Two words with one character of the class `\s` between them count 2. -/
theorem countTokens_two (u v : Str) (c : Char) (hu : u ≠ []) (hv : v ≠ [])
    (hus : ∀ x ∈ u, isSpace x = false) (hvs : ∀ x ∈ v, isSpace x = false)
    (hc : isReSpace c = true) : countTokens (u ++ c :: v) = 2 := by
  have hcs := isSpace_of_isReSpace c hc
  rw [countTokens_eq_countRuns]
  · unfold countRuns
    rw [countRunsFrom_nonspace true u _ hus]
    have hv' := countRunsFrom_nonspace true v [] hvs
    rw [List.append_nil] at hv'
    simp [hu, hv, countRunsFrom, hcs, hv']
  · intro x hx
    rcases List.mem_append.mp hx with h | h
    · rw [hus x h, isReSpace_of_not_isSpace x (hus x h)]
    · rcases List.mem_cons.mp h with rfl | h
      · rw [hcs, hc]
      · rw [hvs x h, isReSpace_of_not_isSpace x (hvs x h)]

/-- C14, amended. `countWords` is invariant to the separator among the five
characters of the class `\s`: for non-empty words `u` and `v` without white
space and characters `c` and `d` among space, tab, newline, carriage return and
form feed, the files with the texts `u c v` and `u d v` have the same count,
which is 2. -/
theorem countWords_separator (env : Env) (f1 f2 u v : Str) (c d : Char)
    (h1 : env.readFile f1 = .ok (u ++ c :: v)) (h2 : env.readFile f2 = .ok (u ++ d :: v))
    (hu : u ≠ []) (hv : v ≠ [])
    (hus : ∀ x ∈ u, isSpace x = false) (hvs : ∀ x ∈ v, isSpace x = false)
    (hc : isReSpace c = true) (hd : isReSpace d = true) :
    countWords env f1 = countWords env f2 ∧ countWords env f1 = (2, none) := by
  have e1 : countWords env f1 = (2, none) := by
    unfold countWords
    rw [h1]
    simp only
    rw [countTokens_two u v c hu hv hus hvs hc]
  have e2 : countWords env f2 = (2, none) := by
    unfold countWords
    rw [h2]
    simp only
    rw [countTokens_two u v d hu hv hus hvs hd]
  exact ⟨e1.trans e2.symm, e1⟩

/-- Witness of C14, amended: `Hello` and `world` with a tab and with a
newline between them. -/
theorem countWords_separator_witness :
    countWords (pairEnv "Hello\tworld".toList "Hello\nworld".toList) [] =
      countWords (pairEnv "Hello\tworld".toList "Hello\nworld".toList) ['2'] ∧
    countWords (pairEnv "Hello\tworld".toList "Hello\nworld".toList) [] = (2, none) :=
  countWords_separator (pairEnv "Hello\tworld".toList "Hello\nworld".toList) [] ['2']
    "Hello".toList "world".toList '\t' '\n' rfl rfl (by decide) (by decide) (by decide)
    (by decide) (by decide) (by decide)

/-- Counterexample to C14 as stated: a vertical tab and the no-break space
U+00A0 are white space, but `a` and `b` with one of them in between count as
one word, and with a space as two. -/
theorem countWords_vertical_tab :
    isSpace '\x0b' = true ∧ isSpace (Char.ofNat 0xA0) = true ∧ isSpace ' ' = true ∧
    countWords (textEnv ['a', '\x0b', 'b']) [] = (1, none) ∧
    countWords (textEnv ['a', Char.ofNat 0xA0, 'b']) [] = (1, none) ∧
    countWords (textEnv ['a', ' ', 'b']) [] = (2, none) := by
  refine ⟨?_, ?_, ?_, ?_, ?_, ?_⟩ <;> decide

/-- The pieces that `Split` returns are made of characters of the text. -/
theorem splitPieces_mem (s : Str) (ms : List (Nat × Nat)) (beg end_ : Nat) :
    ∀ w ∈ splitPieces s ms beg end_, ∀ c ∈ w, c ∈ s := by
  induction ms generalizing beg end_ with
  | nil =>
    intro w hw c hc
    unfold splitPieces at hw
    split at hw
    · rw [List.mem_singleton] at hw
      subst hw
      exact List.mem_of_mem_drop hc
    · exact absurd hw (List.not_mem_nil w)
  | cons m ms ih =>
    obtain ⟨b, e⟩ := m
    intro w hw c hc
    unfold splitPieces at hw
    split at hw
    · rcases List.mem_cons.mp hw with rfl | hw
      · exact List.mem_of_mem_drop (List.mem_of_mem_take hc)
      · exact ih _ _ w hw c hc
    · exact ih _ _ w hw c hc

/-- C15. `countWords` returns 0, without error, for the empty text and for
every text made of white space only, in the sense of `unicode.IsSpace`, so also
for the white space that `\s+` does not split on (the vertical tab, the Unicode
spaces): every piece that `Split` returns trims to the empty string. -/
theorem countWords_blank (env : Env) (filename t : Str)
    (hread : env.readFile filename = .ok t) (hblank : ∀ c ∈ t, isSpace c = true) :
    countWords env filename = (0, none) ∧ ∀ word ∈ reSplit wsRegex t, trimSpace word = [] := by
  have hpieces : ∀ word ∈ reSplit wsRegex t, trimSpace word = [] := by
    intro word hword
    rw [trimSpace_eq_nil_iff]
    intro c hc
    unfold reSplit at hword
    split at hword
    · rw [List.mem_singleton] at hword
      subst hword
      exact absurd hc (List.not_mem_nil c)
    · exact hblank c (splitPieces_mem t _ 0 0 word hword c hc)
  refine ⟨?_, hpieces⟩
  unfold countWords
  rw [hread]
  simp only
  unfold countTokens
  rw [List.filter_eq_nil_iff.mpr (fun word hword => by simp [hpieces word hword])]
  rfl

/-- Witness of C15: the text of the test, spaces, newlines and a tab. -/
theorem countWords_blank_witness :
    countWords (textEnv "   \n\t  \n  ".toList) [] = (0, none) :=
  (countWords_blank (textEnv "   \n\t  \n  ".toList) [] "   \n\t  \n  ".toList rfl
    (by decide)).1

/-- The empty text and white space that `\s+` does not split on count 0. -/
theorem countTokens_blank_examples :
    countTokens [] = 0 ∧ countTokens ['\x0b', Char.ofNat 0xA0, ' ', Char.ofNat 0x3000] = 0 := by
  constructor <;> decide

/-! ## C16, C17: the failure kinds of `validateFileNameAndID` -/

/-- The mismatch message differs from the four fixed messages. -/
theorem errMismatch_ne (u t : Str) :
    errMismatch u t ≠ errFileName ∧
    errMismatch u t ≠ "error extracting YAML header: ".toList ++ errNoHeader ∧
    errMismatch u t ≠ "missing 'ID' field in header".toList ∧
    errMismatch u t ≠ "'ID' field must be a string".toList := by
  have h9 : (errMismatch u t).get? 9 = some 'u' := rfl
  have h0 : (errMismatch u t).head? = some 'f' := rfl
  refine ⟨?_, ?_, ?_, ?_⟩
  · intro h
    rw [h] at h9
    exact absurd h9 (by decide)
  · intro h
    rw [h] at h0
    exact absurd h0 (by decide)
  · intro h
    rw [h] at h0
    exact absurd h0 (by decide)
  · intro h
    rw [h] at h0
    exact absurd h0 (by decide)

/-- C16. `validateFileNameAndID` reports each failure kind with its own
message, in this order: (a) a base name that does not match the pattern, then
for a readable file (b) a header that cannot be extracted, then for a parsed
header (c) no `ID` key, (d) an `ID` that is no string, (e) an `ID` string that
differs, trimmed, from the id in the file name; each is reported only when the
ones before it do not apply.  The five messages are pairwise different. -/
theorem validateFileNameAndID_kinds (env : Env) (filename : Str) :
    ((findStringSubmatch candidateRegex (filepathBase filename)).length ≠ 2 →
      validateFileNameAndID env filename = some errFileName) ∧
    (∀ content, (findStringSubmatch candidateRegex (filepathBase filename)).length = 2 →
      env.readFile filename = .ok content → (extractYAMLHeader content).2 ≠ none →
      validateFileNameAndID env filename =
        some ("error extracting YAML header: ".toList ++ errNoHeader)) ∧
    (∀ content yamlHeader header,
      (findStringSubmatch candidateRegex (filepathBase filename)).length = 2 →
      env.readFile filename = .ok content → extractYAMLHeader content = (yamlHeader, none) →
      env.unmarshalMap yamlHeader = .ok header →
      (header "ID".toList = none →
        validateFileNameAndID env filename = some "missing 'ID' field in header".toList) ∧
      (∀ value, header "ID".toList = some value → (∀ s, value ≠ .str s) →
        validateFileNameAndID env filename = some "'ID' field must be a string".toList) ∧
      (∀ s, header "ID".toList = some (.str s) →
        trimSpace s ≠ (findStringSubmatch candidateRegex (filepathBase filename)).getD 1 [] →
        validateFileNameAndID env filename =
          some (errMismatch
            ((findStringSubmatch candidateRegex (filepathBase filename)).getD 1 [])
            (trimSpace s)))) ∧
    (∀ u t, [errFileName, "error extracting YAML header: ".toList ++ errNoHeader,
      "missing 'ID' field in header".toList, "'ID' field must be a string".toList,
      errMismatch u t].Nodup) := by
  refine ⟨?_, ?_, ?_, ?_⟩
  · intro h
    unfold validateFileNameAndID
    dsimp only
    rw [if_pos h]
  · intro content hlen hread hext
    have hlen' : ¬ (findStringSubmatch candidateRegex (filepathBase filename)).length ≠ 2 :=
      fun h => h hlen
    unfold validateFileNameAndID
    dsimp only
    rw [if_neg hlen']
    simp only [hread, extractYAMLHeader_error content hext]
  · intro content yamlHeader header hlen hread hext hparse
    have hlen' : ¬ (findStringSubmatch candidateRegex (filepathBase filename)).length ≠ 2 :=
      fun h => h hlen
    refine ⟨?_, ?_, ?_⟩
    · intro hid
      unfold validateFileNameAndID
      dsimp only
      rw [if_neg hlen']
      simp only [hread, hext, hparse, hid]
    · intro value hid hns
      unfold validateFileNameAndID
      dsimp only
      rw [if_neg hlen']
      simp only [hread, hext, hparse, hid]
    · intro s hid hne
      unfold validateFileNameAndID
      dsimp only
      rw [if_neg hlen']
      simp only [hread, hext, hparse, hid]
      rw [if_pos hne]
  · intro u t
    obtain ⟨h1, h2, h3, h4⟩ := errMismatch_ne u t
    have hc : [errFileName, "error extracting YAML header: ".toList ++ errNoHeader,
        "missing 'ID' field in header".toList, "'ID' field must be a string".toList].Nodup := by
      decide
    rw [show [errFileName, "error extracting YAML header: ".toList ++ errNoHeader,
        "missing 'ID' field in header".toList, "'ID' field must be a string".toList,
        errMismatch u t] =
        [errFileName, "error extracting YAML header: ".toList ++ errNoHeader,
        "missing 'ID' field in header".toList, "'ID' field must be a string".toList] ++
        [errMismatch u t] from rfl]
    rw [List.nodup_append]
    refine ⟨hc, List.nodup_singleton _, ?_⟩
    intro a ha hb
    rw [List.mem_singleton] at hb
    subst hb
    simp only [List.mem_cons, List.mem_singleton, List.not_mem_nil, or_false] at ha
    rcases ha with h | h | h | h
    · exact h1 h
    · exact h2 h
    · exact h3 h
    · exact h4 h

/-- Witness of C16: the bio of the tests without an ID has the message of
kind (c), a file name of the wrong form the message of kind (a). -/
theorem validateFileNameAndID_kinds_witness :
    validateFileNameAndID exampleEnv "/e/candidate-noid.md".toList =
      some "missing 'ID' field in header".toList ∧
    validateFileNameAndID exampleEnv "/e/invalid-format.md".toList = some errFileName :=
  ⟨((validateFileNameAndID_kinds exampleEnv "/e/candidate-noid.md".toList).2.2.1 noIdContent
      "name: Test User\ninfo:\n  - employer: Test Corp".toList
      (headerAsMap ⟨"Test User".toList, [], [[("employer".toList, "Test Corp".toList)]]⟩)
      (by decide) rfl (by decide) rfl).1 rfl,
    (validateFileNameAndID_kinds exampleEnv "/e/invalid-format.md".toList).1 (by decide)⟩

/-- C17. The test of `findCandidateFiles` and the check of the file name fit
together: a base name that matches the pattern passes the test of the prefix
`candidate-` and the suffix `.md`, and for a base name that passes this test
and does not match the pattern, `validateFileNameAndID` returns the error
`filename must follow format 'candidate-username.md'`, whatever the file
contains. -/
theorem validateFileNameAndID_badName (env : Env) (filename name : Str)
    (hbase : filepathBase filename = name) :
    ((findStringSubmatch candidateRegex name).length = 2 → isCandidateName name = true) ∧
    (isCandidateName name = true → (findStringSubmatch candidateRegex name).length ≠ 2 →
      validateFileNameAndID env filename = some errFileName) := by
  constructor
  · intro h
    obtain ⟨u, -, -, rfl⟩ := candidateRegex_some name (by
      intro h0
      rw [h0] at h
      exact absurd h (by simp))
    rw [isCandidateName_iff]
    exact ⟨⟨u ++ ".md".toList, by simp⟩, ⟨"candidate-".toList ++ u, by simp⟩⟩
  · intro _ h
    unfold validateFileNameAndID
    dsimp only
    rw [hbase, if_pos h]

/-- Witness of C17: the names `candidate-a b.md` and `candidate-.md`. -/
theorem validateFileNameAndID_badName_witness :
    isCandidateName "candidate-a b.md".toList = true ∧
    validateFileNameAndID exampleEnv "/e/candidate-a b.md".toList = some errFileName ∧
    isCandidateName "candidate-.md".toList = true ∧
    validateFileNameAndID (textEnv validContent) "/e/candidate-.md".toList = some errFileName :=
  ⟨by decide,
    (validateFileNameAndID_badName exampleEnv "/e/candidate-a b.md".toList
      "candidate-a b.md".toList (by decide)).2 (by decide) (by decide),
    by decide,
    (validateFileNameAndID_badName (textEnv validContent) "/e/candidate-.md".toList
      "candidate-.md".toList (by decide)).2 (by decide) (by decide)⟩

/-! ## C18: the number in the summary -/

/-- The summary of `main` gives the number of entries of `errors`. -/
theorem report_count (errors : List ValidationError) (recommendedWords : Int) :
    fmtD errors.length ++ " invalid candidate bio(s) detected.\n".toList ∈
      report errors recommendedWords := by
  simp [report]

/-- C18 fails on the code: the run over one candidate file, the bio of the
tests without an ID, has two entries for this file and prints
`2 invalid candidate bio(s) detected.`, while one candidate file has an error. -/
theorem main_summary_counts_entries :
    findCandidateFiles (walkEnv noIdWalk) "/e".toList =
      (["/e/candidate-noid.md".toList], none) ∧
    (collectErrors (walkEnv noIdWalk) 0 ⟨[]⟩ [] ["/e/candidate-noid.md".toList]).1 =
      [⟨"/e/candidate-noid.md".toList, "missing 'ID' field in header".toList⟩,
       ⟨"/e/candidate-noid.md".toList, "missing required field: ID".toList⟩] ∧
    invalidFileCount ["/e/candidate-noid.md".toList]
      (collectErrors (walkEnv noIdWalk) 0 ⟨[]⟩ [] ["/e/candidate-noid.md".toList]).1 = 1 ∧
    (main (walkEnv noIdWalk) (plainFlags 0 "/e".toList)).exitCode = 1 ∧
    (main (walkEnv noIdWalk) (plainFlags 0 "/e".toList)).stdout =
      ["/e/candidate-noid.md: missing 'ID' field in header\n".toList,
       "/e/candidate-noid.md: missing required field: ID\n".toList,
       "\n".toList ++ List.replicate 68 '=' ++ "\n".toList,
       "2 invalid candidate bio(s) detected.\n".toList,
       "Bios must follow the nomination template and filename format.\n".toList,
       List.replicate 68 '=' ++ "\n".toList] := by
  refine ⟨?_, ?_, ?_, ?_, ?_⟩ <;> decide

/-! ## C19: the end of the closing line -/

/-- The pieces of a text around a separator: those before it, then those
after it. -/
theorem strSplit_append (sep : Char) (a s : Str) :
    strSplit sep (a ++ sep :: s) = strSplit sep a ++ strSplit sep s := by
  induction a with
  | nil =>
    show strSplit sep (sep :: s) = strSplit sep [] ++ strSplit sep s
    simp [strSplit]
  | cons c a ih =>
    show strSplit sep (c :: (a ++ sep :: s)) = strSplit sep (c :: a) ++ strSplit sep s
    rw [strSplit, strSplit]
    by_cases h : (c == sep) = true
    · rw [if_pos h, if_pos h, ih]
      rfl
    · rw [if_neg h, if_neg h, ih]
      cases hsa : strSplit sep a with
      | nil => exact absurd hsa (strSplit_ne_nil _ _)
      | cons piece pieces => rfl

/-- An element between two non-empty parts of a list is neither its first nor
its last element. -/
theorem mem_middle {α : Type} (a b z : α) (M L1 L2 : List α)
    (h : a :: (M ++ [b]) = L1 ++ z :: L2) (h1 : L1 ≠ []) (h2 : L2 ≠ []) : z ∈ M := by
  obtain ⟨a', L1', rfl⟩ := List.exists_cons_of_ne_nil h1
  obtain ⟨L2', b', rfl⟩ : ∃ L2' b', L2 = L2' ++ [b'] :=
    ⟨L2.dropLast, L2.getLast h2, (List.dropLast_append_getLast h2).symm⟩
  rw [List.cons_append] at h
  have h' := (List.cons.inj h).2
  have h'' : M ++ [b] = (L1' ++ z :: L2') ++ [b'] := by
    rw [h']
    simp
  have := (List.append_inj' h'' rfl).1
  rw [this]
  simp

/-- C19, amended. `extractYAMLHeader` requires a newline after the closing
delimiter and at least one header line before it: for a body `B` none of whose
lines is `---` followed only by white space (be the line ended by a newline or
the last of `B`), the text of 61 dashes, a newline, `B`, a newline and `---`
with nothing after it fails; so does the text of 61 dashes, a newline, `---` and
a newline, with an empty header. -/
theorem extractYAMLHeader_needs_newline (B : Str)
    (hlines : ∀ l ∈ textLines B, isCloseLine l = false) :
    extractYAMLHeader (List.replicate 61 '-' ++ "\n".toList ++ B ++ "\n---".toList) =
      ([], some errNoHeader) ∧
    extractYAMLHeader (List.replicate 61 '-' ++ "\n---\n".toList) = ([], some errNoHeader) := by
  refine ⟨?_, by decide⟩
  apply extractYAMLHeader_error
  intro h
  obtain ⟨w1, w2, post, hc, -, hw2⟩ := extractYAMLHeader_some _ h
  generalize (extractYAMLHeader
    (List.replicate 61 '-' ++ "\n".toList ++ B ++ "\n---".toList)).1 = hdr at hc
  have hc' : '\n' :: (B ++ '\n' :: "---".toList) =
      w1 ++ '\n' :: (hdr ++ '\n' :: ("---".toList ++ w2 ++ '\n' :: post)) := by
    have e1 : List.replicate 61 '-' ++ "\n".toList ++ B ++ "\n---".toList =
        dashes61 ++ '\n' :: (B ++ '\n' :: "---".toList) := by
      show List.replicate 61 '-' ++ ['\n'] ++ B ++ ['\n', '-', '-', '-'] =
        dashes61 ++ '\n' :: (B ++ '\n' :: ['-', '-', '-'])
      simp [dashes61]
    have e2 : dashes61 ++ w1 ++ '\n' :: (hdr ++ ("\n---".toList ++ w2 ++ '\n' :: post)) =
        dashes61 ++ (w1 ++ '\n' :: (hdr ++ '\n' :: ("---".toList ++ w2 ++ '\n' :: post))) := by
      show dashes61 ++ w1 ++ '\n' :: (hdr ++ (['\n', '-', '-', '-'] ++ w2 ++ '\n' :: post)) =
        dashes61 ++ (w1 ++ '\n' :: (hdr ++ '\n' :: (['-', '-', '-'] ++ w2 ++ '\n' :: post)))
      simp
    rw [e1, e2] at hc
    exact List.append_cancel_left hc
  have hsplit := congrArg (strSplit '\n') hc'
  have hl : strSplit '\n' ('\n' :: (B ++ '\n' :: "---".toList)) =
      [] :: (strSplit '\n' B ++ ["---".toList]) := by
    have := strSplit_append '\n' [] (B ++ '\n' :: "---".toList)
    rw [List.nil_append] at this
    rw [this, strSplit_append]
    rfl
  obtain ⟨rest1, hz⟩ : ∃ rest1, strSplit '\n' ("---".toList ++ w2) =
      ("---".toList ++ w2.takeWhile (fun c => c != '\n')) :: rest1 := by
    have hh := head_strSplit '\n' ("---".toList ++ w2)
    have ht : ("---".toList ++ w2).takeWhile (fun c => c != '\n') =
        "---".toList ++ w2.takeWhile (fun c => c != '\n') := by
      show (['-', '-', '-'] ++ w2).takeWhile _ = _
      simp only [List.cons_append, List.nil_append, List.takeWhile_cons]
      rw [if_pos (by decide)]
      rfl
    rw [ht] at hh
    cases hs : strSplit '\n' ("---".toList ++ w2) with
    | nil => exact absurd hs (strSplit_ne_nil _ _)
    | cons z rest1 =>
      rw [hs] at hh
      simp only [List.head?_cons, Option.some.injEq] at hh
      exact ⟨rest1, by rw [hh]⟩
  have hr : strSplit '\n' (w1 ++ '\n' :: (hdr ++ '\n' :: ("---".toList ++ w2 ++ '\n' :: post))) =
      (strSplit '\n' w1 ++ strSplit '\n' hdr) ++
        ("---".toList ++ w2.takeWhile (fun c => c != '\n')) ::
          (rest1 ++ strSplit '\n' post) := by
    rw [strSplit_append, strSplit_append, strSplit_append, hz]
    simp
  rw [hl, hr] at hsplit
  have hmem := mem_middle _ _ _ _ _ _ hsplit
    (by simp [strSplit_ne_nil]) (by simp [strSplit_ne_nil])
  have hclose : isCloseLine ("---".toList ++ w2.takeWhile (fun c => c != '\n')) = true :=
    (isCloseLine_iff _).mpr ⟨_, rfl, takeWhile_subset _ w2 hw2⟩
  rw [hlines _ hmem] at hclose
  exact absurd hclose (by simp)

/-- Witness of C19, amended: the header `name: x` and a closing line without
a newline. -/
theorem extractYAMLHeader_needs_newline_witness :
    extractYAMLHeader (List.replicate 61 '-' ++ "\n".toList ++ "name: x".toList ++
      "\n---".toList) = ([], some errNoHeader) ∧
    extractYAMLHeader (List.replicate 61 '-' ++ "\n---\n".toList) = ([], some errNoHeader) :=
  extractYAMLHeader_needs_newline "name: x".toList (by decide)

/-- Counterexample to C19 as stated: the body `x`, newline, `---` has no line
`---` that a newline ends, and the text with this body and a closing `---`
without a newline gives the header `x`: the closing line is the last line of
the body. -/
theorem extractYAMLHeader_body_closes :
    hasTerminatedCloseLine "x\n---".toList = false ∧
    extractYAMLHeader (List.replicate 61 '-' ++ "\n".toList ++ "x\n---".toList ++
      "\n---".toList) = ("x".toList, none) := by
  constructor <;> decide

end ValidateBios
